import Mathlib

/-!
Verification of the OpenCode-Linear plugin against its specification.

The development shallowly embeds the components the claims are about:

* the reference detector (`OpenCodeReferenceDetector` of the plugin), whose
  regex `@opencode\b[^@]*(?=@opencode|$)` (flags `gi`) is modelled as an
  explicit scanner with exactly the backtracking semantics of the
  JavaScript engine's `exec` loop;
* the TUI event stream manager (bounded history, substring filters);
* the Linear CRUD client (ownership gate, tri-state update fields,
  not-found behaviour), with the external Linear service modelled as an
  explicit world state;
* the webhook signature verifier, modelled from the spec because the
  middleware source is not part of the sources given.

Texts are represented as `List Char` (`strL` converts a literal).
-/

set_option maxRecDepth 4096

deriving instance DecidableEq for Except

/-- Characters of a string literal; the string representation used throughout. -/
def strL (s : String) : List Char := s.data

/-- Word characters of the JavaScript regex class w: ASCII letters, digits, underscore. -/
def jsWordChar (c : Char) : Bool := c.isAlpha || c.isDigit || c == '_'

/-- Whitespace removed by JavaScript String.prototype.trim (the characters relevant here). -/
def jsWhitespace (c : Char) : Bool :=
  c == ' ' || c == '\t' || c == '\n' || c == '\r' || c == '\x0b' || c == '\x0c' || c == '\u00A0'

/-- Model of String.prototype.trim: drop whitespace from both ends. -/
def trimStr (s : List Char) : List Char :=
  ((s.dropWhile jsWhitespace).reverse.dropWhile jsWhitespace).reverse

/-- Case-insensitive match of a pattern against the beginning of a text,
as the regex flag i compares ASCII letters. -/
def ciMatch : List Char → List Char → Bool
  | [], _ => true
  | _ :: _, [] => false
  | p :: ps, c :: cs => (p.toLower == c.toLower) && ciMatch ps cs

/-- The marker token of the detector pattern. -/
def markerChars : List Char := strL "@opencode"

/-- Slice of a text from position i (inclusive) to position j (exclusive). -/
def sliceStr (s : List Char) (i j : Nat) : List Char := (s.drop i).take (j - i)

/-- A detected reference, mirroring interface OpenCodeReference of the plugin:
raw text, start and end position, and the trimmed full comment as context. -/
structure OpenCodeReference where
  raw : List Char
  startPos : Nat
  endPos : Nat
  context : List Char
deriving Repr, DecidableEq

/-- The literal part of the pattern matched at position i of s, case-insensitively. -/
def markerAt (s : List Char) (i : Nat) : Bool := ciMatch markerChars (s.drop i)

/-- The marker together with the word boundary the pattern requires after it. -/
def markerWordAt (s : List Char) (i : Nat) : Bool :=
  markerAt s i &&
    (match (s.drop (i + 9)).head? with
     | none => true
     | some c => !jsWordChar c)

/-- Relative index of the first at-sign of a list, or its length when there is none. -/
def idxAmp : List Char → Nat
  | [] => 0
  | c :: cs => if c == '@' then 0 else idxAmp cs + 1

/-- Absolute index of the first at-sign of s at or after j, or the length of s. -/
def findAmp (s : List Char) (j : Nat) : Nat := j + idxAmp (s.drop j)

/-- End position of a match of the pattern attempted at position i of s.
The greedy class excluding at-signs runs to the first at-sign after the
marker (or the end), and the lookahead succeeds only at the end of the
string or where the marker starts again; otherwise the whole attempt fails,
because backtracking cannot move past the at-sign. -/
def matchEnd (s : List Char) (i : Nat) : Option Nat :=
  if markerWordAt s i then
    let q := findAmp s (i + 9)
    if q == s.length || markerAt s q then some q else none
  else none

def nextMatchAux : Nat → List Char → Nat → Option (Nat × Nat)
  | 0, _, _ => none
  | fuel + 1, s, li =>
    if s.length < li then none
    else
      match matchEnd s li with
      | some q => some (li, q)
      | none => nextMatchAux fuel s (li + 1)

/-- First match of the pattern starting at or after position li, with its end,
as the JavaScript engine searches from lastIndex. -/
def nextMatch (s : List Char) (li : Nat) : Option (Nat × Nat) :=
  nextMatchAux (s.length + 1 - li) s li

def detectAux : Nat → List Char → Nat → List OpenCodeReference
  | 0, _, _ => []
  | fuel + 1, s, li =>
    match nextMatch s li with
    | none => []
    | some (i, q) => ⟨sliceStr s i q, i, q, trimStr s⟩ :: detectAux fuel s q

/-- The exec loop of detectReferences resumed at lastIndex li. -/
def detectFrom (s : List Char) (li : Nat) : List OpenCodeReference :=
  detectAux (s.length + 1 - li) s li

/-- OpenCodeReferenceDetector.detectReferences: all matches of the pattern,
scanned left to right, each recorded with its positions and the trimmed comment. -/
def detectReferences (s : List Char) : List OpenCodeReference := detectFrom s 0

/-- OpenCodeReferenceDetector.hasOpenCodeReference: the pattern tests positively
after the lastIndex reset, that is, some match exists. -/
def hasOpenCodeReference (s : List Char) : Bool := (nextMatch s 0).isSome

/-- Removal of the first case-insensitive occurrence of the marker,
as String.prototype.replace with a non-global case-insensitive pattern. -/
def removeFirstMarker : List Char → List Char
  | [] => []
  | c :: cs => if ciMatch markerChars (c :: cs) then cs.drop 8 else c :: removeFirstMarker cs

/-- OpenCodeReferenceDetector.extractAction: strip the marker, trim, take the
leading word characters lower-cased, or the default help. -/
def extractAction (r : OpenCodeReference) : List Char :=
  let t := trimStr (removeFirstMarker r.raw)
  let w := t.takeWhile jsWordChar
  if w.isEmpty then strL "help" else w.map Char.toLower

/-- Lower-casing of a whole text, as String.prototype.toLowerCase for ASCII. -/
def lcStr (s : List Char) : List Char := s.map Char.toLower

def startsWithSub : List Char → List Char → Bool
  | [], _ => true
  | _ :: _, [] => false
  | n :: ns, c :: cs => n == c && startsWithSub ns cs

/-- Substring containment, as String.prototype.includes. -/
def containsSub : List Char → List Char → Bool
  | [], needle => startsWithSub needle []
  | c :: cs, needle => startsWithSub needle (c :: cs) || containsSub cs needle

/-- OpenCodeReferenceDetector.hasOptions: search the lower-cased raw text for
a double-dash or blank-single-dash form of any of the option names. -/
def hasOptions (r : OpenCodeReference) (options : List (List Char)) : Bool :=
  let searchText := lcStr r.raw
  options.any fun option =>
    containsSub searchText (strL "--" ++ lcStr option) ||
    containsSub searchText (strL " -" ++ lcStr option)

/-! Spec-side formulations for the detector claims. -/

/-- Positions of case-insensitive occurrences of the marker token in s. -/
def markerOccurrences (s : List Char) : List Nat :=
  (List.range s.length).filter fun i => markerAt s i

/-- Number of occurrences of the marker token in s. -/
def countMarkers (s : List Char) : Nat := (markerOccurrences s).length

/-- Pair each position of a list with the following position, the last one
with the given length: the spans the specification describes. -/
def consecutiveSpans : List Nat → Nat → List (Nat × Nat)
  | [], _ => []
  | [p], len => [(p, len)]
  | p :: q :: ps, len => (p, q) :: consecutiveSpans (q :: ps) len

/-- References the specification says detection returns: one per marker
occurrence, each extending exactly to the next occurrence or the end. -/
def specReferences (s : List Char) : List OpenCodeReference :=
  (consecutiveSpans (markerOccurrences s) s.length).map fun pq =>
    ⟨sliceStr s pq.1 pq.2, pq.1, pq.2, trimStr s⟩

/-- Texts in which every at-sign begins a whole-word marker occurrence:
the texts on which the greedy-until-next-marker reading is accurate. -/
def cleanText (s : List Char) : Bool :=
  (List.range s.length).all fun i => s.getD i ' ' != '@' || markerWordAt s i

/-- Helper for reasoning: the increasing list of at-sign positions of s at or
after j, produced by repeated findAmp steps. -/
def ampsFromAux : Nat → List Char → Nat → List Nat
  | 0, _, _ => []
  | fuel + 1, s, j =>
    if findAmp s j < s.length then findAmp s j :: ampsFromAux fuel s (findAmp s j + 1) else []

def ampsFrom (s : List Char) (j : Nat) : List Nat := ampsFromAux (s.length + 1 - j) s j

/-! Event stream manager, from TUIEventStreamManager. The formatted event and
the manager state; streamEvent takes the already-formatted event, since
formatting draws on the wall clock, which has no place in the model, and the
claims concern filtering and the history buffer. -/

structure StreamIssueInfo where
  id : String
  identifier : String
  title : String
  url : String
deriving Repr, DecidableEq

structure StreamCommand where
  raw : String
  action : String
  success : Option Bool
  response : Option String
deriving Repr, DecidableEq

structure StreamMetadata where
  source : String
  processedAt : String
  severity : String
  tags : List String
deriving Repr, DecidableEq

structure LinearStreamEvent where
  id : String
  type : String
  title : String
  description : String
  timestamp : String
  actor : String
  issue : StreamIssueInfo
  command : Option StreamCommand
  metadata : StreamMetadata
deriving Repr, DecidableEq

structure StreamState where
  eventHistory : List LinearStreamEvent
  filters : List String
  isActive : Bool
deriving Repr, DecidableEq

def maxHistorySize : Nat := 1000

/-- TUIEventStreamManager.addToHistory: push, then shift once past the cap. -/
def addToHistory (st : StreamState) (e : LinearStreamEvent) : StreamState :=
  let h := st.eventHistory ++ [e]
  { st with eventHistory := if maxHistorySize < h.length then h.drop 1 else h }

def jsToLower (s : String) : String := ⟨s.data.map Char.toLower⟩

/-- String.prototype.includes on the model representation. -/
def jsIncludes (hay needle : String) : Bool := containsSub hay.data needle.data

/-- TUIEventStreamManager.matchesFilter: the lower-cased filter against type,
severity, tags, actor and issue identifier. -/
def matchesFilter (e : LinearStreamEvent) (filter : String) : Bool :=
  let lowerFilter := jsToLower filter
  jsIncludes (jsToLower e.type) lowerFilter ||
  jsIncludes (jsToLower e.metadata.severity) lowerFilter ||
  e.metadata.tags.any (fun tag => jsIncludes (jsToLower tag) lowerFilter) ||
  jsIncludes (jsToLower e.actor) lowerFilter ||
  jsIncludes (jsToLower e.issue.identifier) lowerFilter

/-- TUIEventStreamManager.shouldFilterEvent: nothing is filtered while no
filter is set; otherwise an event passes exactly when some filter matches. -/
def shouldFilterEvent (st : StreamState) (e : LinearStreamEvent) : Bool :=
  if st.filters.length == 0 then false
  else !(st.filters.any fun f => matchesFilter e f)

/-- TUIEventStreamManager.streamEvent on a formatted event: null when
inactive, null when filtered out, otherwise append to history and return it. -/
def streamEvent (st : StreamState) (e : LinearStreamEvent) :
    Option LinearStreamEvent × StreamState :=
  if !st.isActive then (none, st)
  else if shouldFilterEvent st e then (none, st)
  else (some e, addToHistory st e)

def streamAll (st : StreamState) : List LinearStreamEvent → StreamState
  | [] => st
  | e :: es => streamAll (streamEvent st e).2 es

def sampleEvent : LinearStreamEvent :=
  ⟨"evt-1", "comment_created", "New comment on LIN-1", "hello", "t0", "alice",
    ⟨"iss-1", "LIN-1", "Issue one", "https://linear.app/i/1"⟩, none,
    ⟨"linear-webhook", "t0", "info", ["comment_created", "comment", "created"]⟩⟩

def sampleEvent2 : LinearStreamEvent :=
  ⟨"evt-2", "issue_updated", "Issue updated: LIN-2", "moved", "t1", "bob",
    ⟨"iss-2", "LIN-2", "Issue two", "https://linear.app/i/2"⟩, none,
    ⟨"linear-webhook", "t1", "info", ["issue_updated", "issue", "updated"]⟩⟩

/-! Linear CRUD client, from class LinearCRUD. The external Linear service is
modelled as an explicit world: entity tables keyed by id plus the
authenticated viewer. Awaited SDK calls become lookups in the world,
mutations produce an updated world, thrown errors become Except.error. -/

structure IssueRec where
  id : String
  title : String
  description : Option String
  creatorId : Option String
  assigneeId : Option String
  stateId : Option String
  parentId : Option String
  projectId : Option String
  labelIds : List String
  priority : Option Int
deriving Repr, DecidableEq

structure CommentRec where
  id : String
  issueId : String
  body : String
  userId : Option String
deriving Repr, DecidableEq

structure ProjectRec where
  id : String
  name : String
  description : Option String
  leadId : Option String
deriving Repr, DecidableEq

structure MilestoneRec where
  id : String
  projectId : String
  name : String
  description : Option String
  targetDate : Option String
  sortOrder : Option Int
deriving Repr, DecidableEq

structure RelationRec where
  id : String
  issueId : String
  relatedIssueId : String
  relType : String
deriving Repr, DecidableEq

structure LinearWorld where
  currentUserId : String
  users : List String
  workflowStates : List String
  labels : List String
  issues : List IssueRec
  comments : List CommentRec
  projects : List ProjectRec
  milestones : List MilestoneRec
  relations : List RelationRec
deriving Repr, DecidableEq

def findIssue (w : LinearWorld) (id : String) : Option IssueRec :=
  w.issues.find? fun i => i.id == id

def findComment (w : LinearWorld) (id : String) : Option CommentRec :=
  w.comments.find? fun c => c.id == id

def findProject (w : LinearWorld) (id : String) : Option ProjectRec :=
  w.projects.find? fun p => p.id == id

def findMilestone (w : LinearWorld) (id : String) : Option MilestoneRec :=
  w.milestones.find? fun m => m.id == id

def findRelation (w : LinearWorld) (id : String) : Option RelationRec :=
  w.relations.find? fun r => r.id == id

def findUser (w : LinearWorld) (id : String) : Option String :=
  w.users.find? fun u => u == id

def findState (w : LinearWorld) (id : String) : Option String :=
  w.workflowStates.find? fun u => u == id

def findLabel (w : LinearWorld) (id : String) : Option String :=
  w.labels.find? fun u => u == id

def setIssue (w : LinearWorld) (i : IssueRec) : LinearWorld :=
  { w with issues := w.issues.map fun x => if x.id == i.id then i else x }

def removeIssue (w : LinearWorld) (id : String) : LinearWorld :=
  { w with issues := w.issues.filter fun x => !(x.id == id) }

def setComment (w : LinearWorld) (c : CommentRec) : LinearWorld :=
  { w with comments := w.comments.map fun x => if x.id == c.id then c else x }

def removeComment (w : LinearWorld) (id : String) : LinearWorld :=
  { w with comments := w.comments.filter fun x => !(x.id == id) }

def setProject (w : LinearWorld) (p : ProjectRec) : LinearWorld :=
  { w with projects := w.projects.map fun x => if x.id == p.id then p else x }

def removeProject (w : LinearWorld) (id : String) : LinearWorld :=
  { w with projects := w.projects.filter fun x => !(x.id == id) }

def setMilestone (w : LinearWorld) (m : MilestoneRec) : LinearWorld :=
  { w with milestones := w.milestones.map fun x => if x.id == m.id then m else x }

def removeMilestone (w : LinearWorld) (id : String) : LinearWorld :=
  { w with milestones := w.milestones.filter fun x => !(x.id == id) }

def removeRelation (w : LinearWorld) (id : String) : LinearWorld :=
  { w with relations := w.relations.filter fun x => !(x.id == id) }

structure LinearCRUDOptions where
  enableSafetyChecks : Bool
deriving Repr, DecidableEq

structure OperationOptions where
  force : Bool
deriving Repr, DecidableEq

def ownershipError (entityType entityId : String) : String :=
  "Cannot modify " ++ entityType ++ " " ++ entityId ++
    ": You are not the creator/owner. Use force: true to override this safety check."

/-- LinearCRUD.checkOwnership: skipped when safety checks are disabled or
force is set; otherwise an absent, empty (JavaScript falsy) or different
creator id throws the ownership error. -/
def checkOwnership (opts : LinearCRUDOptions) (op : OperationOptions)
    (currentUserId : String) (creatorId : Option String)
    (entityType entityId : String) : Except String Unit :=
  if !opts.enableSafetyChecks || op.force then .ok ()
  else
    match creatorId with
    | none => .error (ownershipError entityType entityId)
    | some c =>
      if c == "" || c != currentUserId then .error (ownershipError entityType entityId)
      else .ok ()

/-- A JavaScript-style optional field: absent (undefined), null, or a value. -/
inductive JsVal (a : Type) where
  | undef : JsVal a
  | null : JsVal a
  | val : a -> JsVal a
deriving Repr, DecidableEq

/-- The resolution step of updateIssue for one relationship field: a truthy
(non-empty) value resolves through the service, falling back to undefined
when it does not resolve; null stays null; undefined and the falsy empty
string stay undefined. -/
def resolveJs (resolve : String -> Option String) : JsVal String -> JsVal String
  | .val v =>
    if v == "" then .undef
    else
      match resolve v with
      | some r => .val r
      | none => .undef
  | .null => .null
  | .undef => .undef

structure UpdateIssueData where
  title : Option String
  description : Option String
  assigneeId : JsVal String
  stateId : JsVal String
  labelIds : Option (List String)
  priority : Option Int
  parentId : JsVal String
  projectId : JsVal String
deriving Repr, DecidableEq

/-- An update payload with every field absent. -/
def emptyUpdateIssueData : UpdateIssueData :=
  ⟨none, none, .undef, .undef, none, none, .undef, .undef⟩

structure IssueUpdatePayload where
  title : Option String
  description : Option String
  assigneeId : JsVal String
  stateId : JsVal String
  parentId : JsVal String
  projectId : JsVal String
  labelIds : Option (List String)
  priority : Option Int
deriving Repr, DecidableEq

/-- What the service does with one tri-state field of the posted payload:
undefined keeps the stored value, null clears it, a value assigns it. -/
def applyTri (old : Option String) : JsVal String -> Option String
  | .undef => old
  | .null => none
  | .val v => some v

/-- Application of the assembled update payload to the stored issue. -/
def applyIssueUpdate (i : IssueRec) (u : IssueUpdatePayload) : IssueRec :=
  { i with
    title := u.title.getD i.title
    description :=
      match u.description with
      | some d => some d
      | none => i.description
    assigneeId := applyTri i.assigneeId u.assigneeId
    stateId := applyTri i.stateId u.stateId
    parentId := applyTri i.parentId u.parentId
    projectId := applyTri i.projectId u.projectId
    labelIds := u.labelIds.getD i.labelIds
    priority :=
      match u.priority with
      | some p => some p
      | none => i.priority }

/-- The payload LinearCRUD.updateIssue assembles from its arguments. -/
def buildIssuePayload (w : LinearWorld) (data : UpdateIssueData) : IssueUpdatePayload :=
  { title := data.title
    description := data.description
    assigneeId := resolveJs (findUser w) data.assigneeId
    stateId := resolveJs (findState w) data.stateId
    parentId := resolveJs (fun v => (findIssue w v).map fun i2 => i2.id) data.parentId
    projectId := resolveJs (fun v => (findProject w v).map fun p => p.id) data.projectId
    labelIds := data.labelIds.map fun ls => ls.filterMap (findLabel w)
    priority := data.priority }

/-- LinearCRUD.getIssue: a missing issue is null, never a failure. -/
def getIssue (w : LinearWorld) (issueId : String) : Except String (Option IssueRec) :=
  .ok (findIssue w issueId)

/-- LinearCRUD.getComment: a missing comment is null, never a failure. -/
def getComment (w : LinearWorld) (commentId : String) : Except String (Option CommentRec) :=
  .ok (findComment w commentId)

/-- LinearCRUD.getProject: a missing project is null, never a failure. -/
def getProject (w : LinearWorld) (projectId : String) : Except String (Option ProjectRec) :=
  .ok (findProject w projectId)

/-- LinearCRUD.updateIssue: missing issue throws not found, then the
ownership gate on the creator, then the resolved payload is applied. -/
def updateIssue (opts : LinearCRUDOptions) (w : LinearWorld) (issueId : String)
    (data : UpdateIssueData) (op : OperationOptions) :
    Except String (IssueRec × LinearWorld) :=
  match findIssue w issueId with
  | none => .error ("Issue " ++ issueId ++ " not found")
  | some issue =>
    match checkOwnership opts op w.currentUserId issue.creatorId "issue" issueId with
    | .error e => .error e
    | .ok _ =>
      let newIssue := applyIssueUpdate issue (buildIssuePayload w data)
      .ok (newIssue, setIssue w newIssue)

/-- LinearCRUD.deleteIssue: a missing issue returns false without failing,
otherwise the ownership gate on the creator, then deletion. -/
def deleteIssue (opts : LinearCRUDOptions) (w : LinearWorld) (issueId : String)
    (op : OperationOptions) : Except String (Bool × LinearWorld) :=
  match findIssue w issueId with
  | none => .ok (false, w)
  | some issue =>
    match checkOwnership opts op w.currentUserId issue.creatorId "issue" issueId with
    | .error e => .error e
    | .ok _ => .ok (true, removeIssue w issueId)

/-- LinearCRUD.updateComment: missing comment throws not found, then the
ownership gate on the comment author. -/
def updateComment (opts : LinearCRUDOptions) (w : LinearWorld) (commentId : String)
    (body : String) (op : OperationOptions) : Except String (CommentRec × LinearWorld) :=
  match findComment w commentId with
  | none => .error ("Comment " ++ commentId ++ " not found")
  | some comment =>
    match checkOwnership opts op w.currentUserId comment.userId "comment" commentId with
    | .error e => .error e
    | .ok _ =>
      let newComment := { comment with body := body }
      .ok (newComment, setComment w newComment)

/-- LinearCRUD.deleteComment: a missing comment returns false without
failing, otherwise the ownership gate on the comment author. -/
def deleteComment (opts : LinearCRUDOptions) (w : LinearWorld) (commentId : String)
    (op : OperationOptions) : Except String (Bool × LinearWorld) :=
  match findComment w commentId with
  | none => .ok (false, w)
  | some comment =>
    match checkOwnership opts op w.currentUserId comment.userId "comment" commentId with
    | .error e => .error e
    | .ok _ => .ok (true, removeComment w commentId)

structure UpdateProjectData where
  name : Option String
  description : Option String
  leadId : Option String
deriving Repr, DecidableEq

/-- LinearCRUD.updateProject: missing project throws not found, then the
ownership gate on the project lead, then the provided fields are applied. -/
def updateProject (opts : LinearCRUDOptions) (w : LinearWorld) (projectId : String)
    (data : UpdateProjectData) (op : OperationOptions) :
    Except String (ProjectRec × LinearWorld) :=
  match findProject w projectId with
  | none => .error ("Project " ++ projectId ++ " not found")
  | some project =>
    match checkOwnership opts op w.currentUserId project.leadId "project" projectId with
    | .error e => .error e
    | .ok _ =>
      let newProject : ProjectRec :=
        { project with
          name := data.name.getD project.name
          description :=
            match data.description with
            | some d => some d
            | none => project.description
          leadId :=
            match data.leadId with
            | some l => some l
            | none => project.leadId }
      .ok (newProject, setProject w newProject)

/-- LinearCRUD.deleteProject: a missing project returns false without
failing, otherwise the ownership gate on the project lead. -/
def deleteProject (opts : LinearCRUDOptions) (w : LinearWorld) (projectId : String)
    (op : OperationOptions) : Except String (Bool × LinearWorld) :=
  match findProject w projectId with
  | none => .ok (false, w)
  | some project =>
    match checkOwnership opts op w.currentUserId project.leadId "project" projectId with
    | .error e => .error e
    | .ok _ => .ok (true, removeProject w projectId)

/-- LinearCRUD.createRelation: both issues must exist, then the ownership
gate on the creator of the source issue. -/
def createRelation (opts : LinearCRUDOptions) (w : LinearWorld)
    (issueId relatedIssueId relType : String) (op : OperationOptions) :
    Except String (RelationRec × LinearWorld) :=
  match findIssue w issueId with
  | none => .error ("Issue " ++ issueId ++ " not found")
  | some issue =>
    match findIssue w relatedIssueId with
    | none => .error ("Related issue " ++ relatedIssueId ++ " not found")
    | some _ =>
      match checkOwnership opts op w.currentUserId issue.creatorId
          "issue (for creating relations)" issueId with
      | .error e => .error e
      | .ok _ =>
        let rel : RelationRec :=
          ⟨"rel-" ++ issueId ++ "-" ++ relatedIssueId, issueId, relatedIssueId, relType⟩
        .ok (rel, { w with relations := w.relations ++ [rel] })

/-- LinearCRUD.deleteRelation: a missing relation returns false without
failing, otherwise the ownership gate on the creator of the source issue of
the relation. -/
def deleteRelation (opts : LinearCRUDOptions) (w : LinearWorld) (relationId : String)
    (op : OperationOptions) : Except String (Bool × LinearWorld) :=
  match findRelation w relationId with
  | none => .ok (false, w)
  | some rel =>
    match checkOwnership opts op w.currentUserId
        ((findIssue w rel.issueId).bind fun i => i.creatorId)
        "issue relation" relationId with
    | .error e => .error e
    | .ok _ => .ok (true, removeRelation w relationId)

structure CreateMilestoneData where
  name : String
  projectId : String
  description : Option String
  targetDate : Option String
  sortOrder : Option Int
deriving Repr, DecidableEq

/-- LinearCRUD.createProjectMilestone: the project must exist, then the
ownership gate on the project lead. -/
def createProjectMilestone (opts : LinearCRUDOptions) (w : LinearWorld)
    (data : CreateMilestoneData) (op : OperationOptions) :
    Except String (MilestoneRec × LinearWorld) :=
  match findProject w data.projectId with
  | none => .error ("Project " ++ data.projectId ++ " not found")
  | some project =>
    match checkOwnership opts op w.currentUserId project.leadId
        "project (for creating milestones)" data.projectId with
    | .error e => .error e
    | .ok _ =>
      let m : MilestoneRec :=
        ⟨"ms-" ++ data.projectId ++ "-" ++ data.name, data.projectId, data.name,
          data.description, data.targetDate, data.sortOrder⟩
      .ok (m, { w with milestones := w.milestones ++ [m] })

structure UpdateMilestoneData where
  name : Option String
  description : Option String
  targetDate : Option String
  sortOrder : Option Int
deriving Repr, DecidableEq

/-- LinearCRUD.updateProjectMilestone: delegates straight to the raw GraphQL
mutation of linear-graphql, with no lookup and no ownership check in the
client; the external service applies the update whenever the milestone
exists and reports a failure otherwise. The options parameters are accepted
and ignored, exactly as in the source. -/
def updateProjectMilestone (_opts : LinearCRUDOptions) (w : LinearWorld)
    (milestoneId : String) (data : UpdateMilestoneData) (_op : OperationOptions) :
    Except String (Bool × LinearWorld) :=
  match findMilestone w milestoneId with
  | none => .error "Failed to update project milestone"
  | some m =>
    let newM : MilestoneRec :=
      { m with
        name := data.name.getD m.name
        description :=
          match data.description with
          | some d => some d
          | none => m.description
        targetDate :=
          match data.targetDate with
          | some d => some d
          | none => m.targetDate
        sortOrder :=
          match data.sortOrder with
          | some d => some d
          | none => m.sortOrder }
    .ok (true, setMilestone w newM)

/-- LinearCRUD.deleteProjectMilestone: a missing milestone returns false
without failing; its project must exist; then the ownership gate on the
project lead. -/
def deleteProjectMilestone (opts : LinearCRUDOptions) (w : LinearWorld)
    (milestoneId : String) (op : OperationOptions) : Except String (Bool × LinearWorld) :=
  match findMilestone w milestoneId with
  | none => .ok (false, w)
  | some m =>
    match findProject w m.projectId with
    | none => .error ("Project for milestone " ++ milestoneId ++ " not found")
    | some project =>
      match checkOwnership opts op w.currentUserId project.leadId
          "project milestone" milestoneId with
      | .error e => .error e
      | .ok _ => .ok (true, removeMilestone w milestoneId)

/-- A world where alice owns every entity and bob is the authenticated user. -/
def worldAlice : LinearWorld :=
  { currentUserId := "bob"
    users := ["alice", "bob"]
    workflowStates := ["st-1"]
    labels := ["lab-1"]
    issues := [⟨"iss-1", "Issue one", none, some "alice", some "alice", some "st-1",
      none, none, [], none⟩]
    comments := [⟨"com-1", "iss-1", "first", some "alice"⟩]
    projects := [⟨"pro-1", "Project one", none, some "alice"⟩]
    milestones := [⟨"ms-1", "pro-1", "Milestone one", none, none, none⟩]
    relations := [⟨"rel-1", "iss-1", "iss-1", "related"⟩] }

/-- A world where bob owns his issue and is the authenticated user. -/
def worldBob : LinearWorld :=
  { currentUserId := "bob"
    users := ["alice", "bob"]
    workflowStates := ["st-1"]
    labels := ["lab-1"]
    issues := [⟨"iss-1", "Issue one", none, some "bob", some "alice", some "st-1",
      none, none, [], none⟩]
    comments := []
    projects := []
    milestones := []
    relations := [] }

/-! Webhook signature verifier. The signature-verification middleware is
imported by the webhook transport but its source is not among the given
sources, so it is modelled from the spec: an HMAC (SHA-256) over the exact
raw body bytes under the shared secret, hex-encoded, compared to the
provided signature, failing closed on a missing signature or missing
secret. The hash follows FIPS 180-4 on bytes as natural numbers, words
reduced modulo 2 to the 32. -/

def w32 (n : Nat) : Nat := n % 4294967296

def rotr32 (n x : Nat) : Nat := w32 (x / 2 ^ n + x % 2 ^ n * 2 ^ (32 - n))

def bigSigma0 (x : Nat) : Nat := rotr32 2 x ^^^ rotr32 13 x ^^^ rotr32 22 x

def bigSigma1 (x : Nat) : Nat := rotr32 6 x ^^^ rotr32 11 x ^^^ rotr32 25 x

def smallSigma0 (x : Nat) : Nat := rotr32 7 x ^^^ rotr32 18 x ^^^ x / 2 ^ 3

def smallSigma1 (x : Nat) : Nat := rotr32 17 x ^^^ rotr32 19 x ^^^ x / 2 ^ 10

def chF (x y z : Nat) : Nat := x &&& y ^^^ (x ^^^ 4294967295) &&& z

def majF (x y z : Nat) : Nat := x &&& y ^^^ x &&& z ^^^ y &&& z

def sha256K : List Nat :=
  [1116352408, 1899447441, 3049323471, 3921009573, 961987163,
   1508970993, 2453635748, 2870763221, 3624381080, 310598401,
   607225278, 1426881987, 1925078388, 2162078206, 2614888103,
   3248222580, 3835390401, 4022224774, 264347078, 604807628,
   770255983, 1249150122, 1555081692, 1996064986, 2554220882,
   2821834349, 2952996808, 3210313671, 3336571891, 3584528711,
   113926993, 338241895, 666307205, 773529912, 1294757372,
   1396182291, 1695183700, 1986661051, 2177026350, 2456956037,
   2730485921, 2820302411, 3259730800, 3345764771, 3516065817,
   3600352804, 4094571909, 275423344, 430227734, 506948616,
   659060556, 883997877, 958139571, 1322822218, 1537002063,
   1747873779, 1955562222, 2024104815, 2227730452, 2361852424,
   2428436474, 2756734187, 3204031479, 3329325298]

def sha256H0 : List Nat :=
  [1779033703, 3144134277, 1013904242, 2773480762, 1359893119,
   2600822924, 528734635, 1541459225]

/-- Big-endian bytes of a number, k bytes wide. -/
def toBytesBE : Nat → Nat → List Nat
  | 0, _ => []
  | k + 1, n => toBytesBE k (n / 256) ++ [n % 256]

/-- FIPS 180-4 padding: the byte 0x80, zeros, the bit length on 8 bytes. -/
def sha256Pad (msg : List Nat) : List Nat :=
  let zeros := (64 - (msg.length + 9) % 64) % 64
  msg ++ [0x80] ++ List.replicate zeros 0 ++ toBytesBE 8 (8 * msg.length)

def bytesToWords : List Nat → List Nat
  | b0 :: b1 :: b2 :: b3 :: rest =>
    (((b0 * 256 + b1) * 256 + b2) * 256 + b3) :: bytesToWords rest
  | _ => []

def sha256Extend : Nat → List Nat → List Nat
  | 0, ws => ws
  | k + 1, ws =>
    let n := ws.length
    let w := w32 (smallSigma1 (ws.getD (n - 2) 0) + ws.getD (n - 7) 0 +
      smallSigma0 (ws.getD (n - 15) 0) + ws.getD (n - 16) 0)
    sha256Extend k (ws ++ [w])

def sha256Schedule (block : List Nat) : List Nat := sha256Extend 48 (bytesToWords block)

def sha256Round (st : List Nat) (kw : Nat × Nat) : List Nat :=
  match st with
  | [a, b, c, d, e, f, g, h] =>
    let t1 := w32 (h + bigSigma1 e + chF e f g + kw.1 + kw.2)
    let t2 := w32 (bigSigma0 a + majF a b c)
    [w32 (t1 + t2), a, b, c, w32 (d + t1), e, f, g]
  | other => other

def sha256Compress (h : List Nat) (block : List Nat) : List Nat :=
  let st := ((sha256K.zip (sha256Schedule block)).foldl sha256Round h)
  (h.zip st).map fun p => w32 (p.1 + p.2)

def chunks64 : Nat → List Nat → List (List Nat)
  | 0, _ => []
  | _ + 1, [] => []
  | k + 1, bytes => bytes.take 64 :: chunks64 k (bytes.drop 64)

/-- SHA-256 of a byte list, as 32 bytes. -/
def sha256 (msg : List Nat) : List Nat :=
  let padded := sha256Pad msg
  ((chunks64 padded.length padded).foldl sha256Compress sha256H0).flatMap (toBytesBE 4)

/-- HMAC-SHA256, RFC 2104 with the 64-byte block size. -/
def hmacSha256 (key msg : List Nat) : List Nat :=
  let k0 := if 64 < key.length then sha256 key else key
  let k1 := k0 ++ List.replicate (64 - k0.length) 0
  sha256 ((k1.map fun b => b ^^^ 0x5c) ++ sha256 ((k1.map fun b => b ^^^ 0x36) ++ msg))

def hexDigit (n : Nat) : Char :=
  if n < 10 then Char.ofNat (48 + n) else Char.ofNat (87 + n)

def bytesToHex (bs : List Nat) : List Char :=
  bs.flatMap fun b => [hexDigit (b / 16), hexDigit (b % 16)]

/-- Bytes of a secret string; the model reads characters as their scalar
values, faithful for the ASCII secrets the configuration carries. -/
def strBytes (s : String) : List Nat := s.data.map fun c => c.toNat

/-- The digest the verifier compares against: hex of the HMAC of the raw
body under the secret. -/
def hmacSha256Hex (secret : String) (body : List Nat) : List Char :=
  bytesToHex (hmacSha256 (strBytes secret) body)

/-- The comparison of the middleware; node timingSafeEqual compares equal
length buffers in constant time and throws on a length mismatch, which the
verifier catches into false, so its value semantics is equality. Timing is
outside the model. -/
def constantTimeEq (a b : List Char) : Bool := a == b

/-- Modelled from the spec: verifyWebhookSignature of the absent
signature-verification middleware. An HMAC (SHA-256) over the exact raw
request body bytes using the shared secret, compared to the provided
signature with the constant-time comparison; a missing signature or a
missing (or empty, the falsy default of the configuration) secret yields
false rather than an error. -/
def verifyWebhookSignature (body : List Nat) (signature : Option String)
    (secret : Option String) : Bool :=
  match secret with
  | none => false
  | some sec =>
    if sec == "" then false
    else
      match signature with
      | none => false
      | some sg => constantTimeEq sg.data (hmacSha256Hex sec body)

/-! Groundwork about characters and the scanning primitives. -/

theorem char_toNat_ofNat_of_lt {n : Nat} (h : n < 55296) : (Char.ofNat n).toNat = n := by
  unfold Char.ofNat
  rw [dif_pos (Or.inl h)]
  rfl

/-- Only the at-sign lower-cases to the at-sign. -/
theorem toLower_eq_amp {c : Char} (h : c.toLower = '@') : c = '@' := by
  have h' : (if c.toNat ≥ 65 ∧ c.toNat ≤ 90 then Char.ofNat (c.toNat + 32) else c) = '@' := h
  clear h
  rename' h' => h
  split at h
  · rename_i hc
    exfalso
    have h64 := congrArg Char.toNat h
    rw [char_toNat_ofNat_of_lt (by omega)] at h64
    have : ('@' : Char).toNat = 64 := by decide
    omega
  · exact h

theorem ciMatch_length {p t : List Char} (h : ciMatch p t = true) : p.length ≤ t.length := by
  induction p generalizing t with
  | nil => simp
  | cons a as ih =>
    cases t with
    | nil => simp [ciMatch] at h
    | cons b bs =>
      simp only [ciMatch, Bool.and_eq_true] at h
      simpa using Nat.succ_le_succ (ih h.2)

theorem ciMatch_getD {p t : List Char} (h : ciMatch p t = true) :
    ∀ m, m < p.length → (t.getD m ' ').toLower = (p.getD m ' ').toLower := by
  induction p generalizing t with
  | nil => intro m hm; simp at hm
  | cons a as ih =>
    cases t with
    | nil => simp [ciMatch] at h
    | cons b bs =>
      simp only [ciMatch, Bool.and_eq_true, beq_iff_eq] at h
      intro m hm
      cases m with
      | zero => simpa using h.1.symm
      | succ k =>
        simp only [List.getD_cons_succ]
        exact ih h.2 k (by simpa using hm)

theorem getD_drop (s : List Char) (j m : Nat) (c : Char) :
    (s.drop j).getD m c = s.getD (j + m) c := by
  simp [List.getD_eq_getElem?_getD, List.getElem?_drop]

theorem length_markerChars : markerChars.length = 9 := by decide

/-- A marker occurrence starts with an at-sign and fits in the text. -/
theorem markerAt_amp {s : List Char} {i : Nat} (h : markerAt s i = true) :
    s.getD i ' ' = '@' ∧ i + 9 ≤ s.length := by
  have hlen := ciMatch_length h
  rw [length_markerChars] at hlen
  have hdl : (s.drop i).length = s.length - i := by simp
  have hile : i + 9 ≤ s.length := by
    by_cases hc : i ≤ s.length
    · omega
    · exfalso; omega
  refine ⟨?_, hile⟩
  have h0 := ciMatch_getD h 0 (by rw [length_markerChars]; omega)
  rw [getD_drop] at h0
  have hm : (markerChars.getD 0 ' ').toLower = '@' := by decide
  rw [hm] at h0
  have := toLower_eq_amp h0
  simpa using this

theorem idxAmp_le_length (l : List Char) : idxAmp l ≤ l.length := by
  induction l with
  | nil => simp [idxAmp]
  | cons c cs ih =>
    by_cases hc : c == '@'
    · simp [idxAmp, hc]
    · simp only [idxAmp, if_neg hc, List.length_cons]
      omega

theorem getD_idxAmp {l : List Char} (h : idxAmp l < l.length) : l.getD (idxAmp l) ' ' = '@' := by
  induction l with
  | nil => simp at h
  | cons c cs ih =>
    by_cases hc : c == '@'
    · have hceq : c = '@' := by simpa using hc
      simp [idxAmp, hc, hceq]
    · simp only [idxAmp, if_neg hc, List.length_cons] at h
      simp only [idxAmp, if_neg hc, List.getD_cons_succ]
      exact ih (by omega)

theorem getD_lt_idxAmp {l : List Char} {k : Nat} (h : k < idxAmp l) : l.getD k ' ' ≠ '@' := by
  induction l generalizing k with
  | nil => simp [idxAmp] at h
  | cons c cs ih =>
    simp only [idxAmp] at h
    by_cases hc : c == '@'
    · simp [hc] at h
    · rw [if_neg hc] at h
      cases k with
      | zero => simpa using (by simpa using hc : ¬ c = '@')
      | succ m => simpa [List.getD_cons_succ] using ih (by omega)

theorem idxAmp_le_of_amp {l : List Char} {k : Nat} (h : l.getD k ' ' = '@') : idxAmp l ≤ k := by
  by_contra hlt
  exact getD_lt_idxAmp (by omega) h

theorem findAmp_ge (s : List Char) (j : Nat) : j ≤ findAmp s j := by
  simp [findAmp]

theorem findAmp_le {s : List Char} {j : Nat} (h : j ≤ s.length) : findAmp s j ≤ s.length := by
  have := idxAmp_le_length (s.drop j)
  simp only [List.length_drop] at this
  simp only [findAmp]
  omega

theorem findAmp_amp {s : List Char} {j : Nat} (h : findAmp s j < s.length) :
    s.getD (findAmp s j) ' ' = '@' := by
  have hj : j ≤ s.length := by
    by_contra hc
    have : s.drop j = [] := List.drop_eq_nil_of_le (by omega)
    simp [findAmp, this, idxAmp] at h
    omega
  have hidx : idxAmp (s.drop j) < (s.drop j).length := by
    simp only [List.length_drop]
    simp only [findAmp] at h
    omega
  have := getD_idxAmp hidx
  rw [getD_drop] at this
  simpa [findAmp] using this

theorem findAmp_not_amp {s : List Char} {j k : Nat} (h1 : j ≤ k) (h2 : k < findAmp s j) :
    s.getD k ' ' ≠ '@' := by
  have hk : k - j < idxAmp (s.drop j) := by simp only [findAmp] at h2; omega
  have := getD_lt_idxAmp hk
  rw [getD_drop] at this
  have hjk : j + (k - j) = k := by omega
  rwa [hjk] at this

theorem findAmp_min {s : List Char} {j k : Nat} (h1 : j ≤ k) (h2 : s.getD k ' ' = '@') :
    findAmp s j ≤ k := by
  have : idxAmp (s.drop j) ≤ k - j := by
    apply idxAmp_le_of_amp
    rw [getD_drop]
    have : j + (k - j) = k := by omega
    rwa [this]
  simp only [findAmp]
  omega

theorem findAmp_eq_self {s : List Char} {j : Nat} (h : s.getD j ' ' = '@') : findAmp s j = j := by
  have h1 := findAmp_ge s j
  have h2 := findAmp_min (Nat.le_refl j) h
  omega

theorem findAmp_succ_of_ne {s : List Char} {j : Nat} (h1 : j < s.length)
    (h2 : s.getD j ' ' ≠ '@') : findAmp s j = findAmp s (j + 1) := by
  have hdrop : s.drop j = s.getD j ' ' :: s.drop (j + 1) := by
    rw [List.drop_eq_getElem_cons h1]
    congr 1
    simp [List.getD_eq_getElem?_getD, List.getElem?_eq_getElem h1]
  simp only [findAmp, hdrop, idxAmp]
  rw [if_neg (by simpa using h2)]
  omega

/-! Properties of single match attempts and of the search loop. -/

theorem markerWordAt_markerAt {s : List Char} {i : Nat} (h : markerWordAt s i = true) :
    markerAt s i = true := by
  simp only [markerWordAt, Bool.and_eq_true] at h
  exact h.1

theorem matchEnd_bounds {s : List Char} {i q : Nat} (h : matchEnd s i = some q) :
    i + 9 ≤ q ∧ q ≤ s.length := by
  simp only [matchEnd] at h
  split at h
  · rename_i hw
    have hm := markerWordAt_markerAt hw
    have hfit := (markerAt_amp hm).2
    split at h
    · have hq : q = findAmp s (i + 9) := by
        simpa using (Option.some.injEq _ _ ▸ h).symm
      subst hq
      exact ⟨findAmp_ge s (i + 9), findAmp_le hfit⟩
    · simp at h
  · simp at h

theorem matchEnd_none_of_false {s : List Char} {i : Nat} (h : markerWordAt s i = false) :
    matchEnd s i = none := by
  simp [matchEnd, h]

theorem nextMatchAux_none_of_gt {fuel : Nat} {s : List Char} {li : Nat}
    (h : s.length < li) : nextMatchAux fuel s li = none := by
  cases fuel with
  | zero => rfl
  | succ n => simp [nextMatchAux, h]

theorem nextMatch_none_of_gt {s : List Char} {li : Nat} (h : s.length < li) :
    nextMatch s li = none := nextMatchAux_none_of_gt h

/-- One-step unfolding of the search for the next match. -/
theorem nextMatch_unfold (s : List Char) (li : Nat) :
    nextMatch s li =
      if s.length < li then none
      else
        match matchEnd s li with
        | some q => some (li, q)
        | none => nextMatch s (li + 1) := by
  by_cases h : s.length < li
  · rw [if_pos h, nextMatch_none_of_gt h]
  · rw [if_neg h]
    have hfuel : s.length + 1 - li = (s.length - li) + 1 := by omega
    have hfuel2 : s.length - li = s.length + 1 - (li + 1) := by omega
    simp only [nextMatch, hfuel, nextMatchAux, if_neg h, hfuel2]

theorem nextMatch_bounds {s : List Char} {li i q : Nat} (h : nextMatch s li = some (i, q)) :
    li ≤ i ∧ i + 9 ≤ q ∧ q ≤ s.length ∧ matchEnd s i = some q := by
  have hgen : ∀ n li, s.length + 1 - li ≤ n → nextMatch s li = some (i, q) →
      li ≤ i ∧ i + 9 ≤ q ∧ q ≤ s.length ∧ matchEnd s i = some q := by
    intro n
    induction n with
    | zero =>
      intro li hle hm
      rw [nextMatch_none_of_gt (by omega)] at hm
      exact absurd hm (by simp)
    | succ k ih =>
      intro li hle hm
      rw [nextMatch_unfold] at hm
      split at hm
      · exact absurd hm (by simp)
      · rename_i hgt
        split at hm
        · rename_i q' hq'
          have hiq : li = i ∧ q' = q := by
            constructor <;> [skip; skip] <;> cases hm <;> rfl
          obtain ⟨h1, h2⟩ := hiq
          subst h1; subst h2
          have hb := matchEnd_bounds hq'
          exact ⟨Nat.le_refl _, hb.1, hb.2, hq'⟩
        · have := ih (li + 1) (by omega) hm
          exact ⟨by omega, this.2.1, this.2.2.1, this.2.2.2⟩
  exact hgen (s.length + 1 - li) li (Nat.le_refl _) h

/-- Fuel does not matter once it covers the remaining positions. -/
theorem detectAux_congr {s : List Char} :
    ∀ n m li, s.length + 1 - li ≤ n → s.length + 1 - li ≤ m →
      detectAux n s li = detectAux m s li := by
  intro n
  induction n using Nat.strong_induction_on with
  | _ n ih =>
    intro m li hn hm
    by_cases hgt : s.length < li
    · have hnone : nextMatch s li = none := nextMatch_none_of_gt hgt
      cases n with
      | zero =>
        cases m with
        | zero => rfl
        | succ m' => simp [detectAux, hnone]
      | succ n' =>
        cases m with
        | zero => simp [detectAux, hnone]
        | succ m' => simp [detectAux, hnone]
    · have hn1 : 1 ≤ s.length + 1 - li := by omega
      cases n with
      | zero => omega
      | succ n' =>
        cases m with
        | zero => omega
        | succ m' =>
          cases hnm : nextMatch s li with
          | none => simp [detectAux, hnm]
          | some iq =>
            obtain ⟨i, q⟩ := iq
            have hb := nextMatch_bounds hnm
            have hq : s.length + 1 - q ≤ n' := by omega
            have hq2 : s.length + 1 - q ≤ m' := by omega
            have hrec : detectAux n' s q = detectAux m' s q := ih n' (by omega) m' q hq hq2
            simp only [detectAux, hnm, hrec]

/-- One-step unfolding of the exec loop. -/
theorem detectFrom_unfold (s : List Char) (li : Nat) :
    detectFrom s li =
      match nextMatch s li with
      | none => []
      | some (i, q) => ⟨sliceStr s i q, i, q, trimStr s⟩ :: detectFrom s q := by
  by_cases hgt : s.length < li
  · have hnone : nextMatch s li = none := nextMatch_none_of_gt hgt
    simp only [hnone, detectFrom]
    have : s.length + 1 - li = 0 := by omega
    rw [this]
    rfl
  · have hfuel : s.length + 1 - li = (s.length - li) + 1 := by omega
    simp only [detectFrom, hfuel, detectAux]
    cases hnm : nextMatch s li with
    | none => rfl
    | some iq =>
      obtain ⟨i, q⟩ := iq
      have hb := nextMatch_bounds hnm
      simp only []
      congr 1
      exact detectAux_congr (s.length - li) (s.length + 1 - q) q (by omega) (Nat.le_refl _)

/-- Structural invariants of every detected reference: positions are ordered
and in range, the raw text is the slice between them, the context the trimmed
comment. -/
theorem detectFrom_mem {s : List Char} :
    ∀ li r, r ∈ detectFrom s li →
      li ≤ r.startPos ∧ r.startPos + 9 ≤ r.endPos ∧ r.endPos ≤ s.length ∧
        r.raw = sliceStr s r.startPos r.endPos ∧ r.context = trimStr s := by
  have hgen : ∀ n li, s.length + 1 - li ≤ n → ∀ r, r ∈ detectFrom s li →
      li ≤ r.startPos ∧ r.startPos + 9 ≤ r.endPos ∧ r.endPos ≤ s.length ∧
        r.raw = sliceStr s r.startPos r.endPos ∧ r.context = trimStr s := by
    intro n
    induction n with
    | zero =>
      intro li hle r hr
      rw [detectFrom_unfold, nextMatch_none_of_gt (by omega)] at hr
      simp at hr
    | succ k ih =>
      intro li hle r hr
      rw [detectFrom_unfold] at hr
      cases hnm : nextMatch s li with
      | none => rw [hnm] at hr; simp at hr
      | some iq =>
        obtain ⟨i, q⟩ := iq
        rw [hnm] at hr
        have hb := nextMatch_bounds hnm
        simp only [List.mem_cons] at hr
        rcases hr with hr | hr
        · subst hr
          exact ⟨hb.1, hb.2.1, hb.2.2.1, rfl, rfl⟩
        · have := ih q (by omega) r hr
          exact ⟨by omega, this.2.1, this.2.2.1, this.2.2.2.1, this.2.2.2.2⟩
  intro li r hr
  exact hgen (s.length + 1 - li) li (Nat.le_refl _) r hr

/-- C8: hasOpenCodeReference agrees with detectReferences being non-empty:
for every text, the existence test is true exactly when detection returns
at least one reference. -/
theorem hasReference_iff_detect_nonempty (s : List Char) :
    hasOpenCodeReference s = true ↔ 0 < (detectReferences s).length := by
  unfold hasOpenCodeReference detectReferences
  rw [detectFrom_unfold]
  cases hnm : nextMatch s 0 with
  | none => simp
  | some iq => obtain ⟨i, q⟩ := iq; simp

/-- C10: every reference returned by detectReferences satisfies raw equals the
slice of the comment from its start to its end position, the end position is
the start position plus the length of raw, and the context is the trimmed
original comment. -/
theorem detect_reference_invariants (comment : List Char) (r : OpenCodeReference)
    (h : r ∈ detectReferences comment) :
    r.raw = sliceStr comment r.startPos r.endPos ∧
      r.endPos = r.startPos + r.raw.length ∧
      r.context = trimStr comment := by
  have hm := detectFrom_mem 0 r h
  refine ⟨hm.2.2.2.1, ?_, hm.2.2.2.2⟩
  rw [hm.2.2.2.1]
  simp only [sliceStr, List.length_take, List.length_drop]
  have h1 : r.startPos + 9 ≤ r.endPos := hm.2.1
  have h2 : r.endPos ≤ comment.length := hm.2.2.1
  omega

/-- Witness for C10 at a concrete comment and reference. -/
theorem detect_reference_invariants_witness :
    (⟨strL "@opencode go", 3, 15, strL "hi @opencode go"⟩ : OpenCodeReference) ∈
        detectReferences (strL "hi @opencode go") ∧
      (⟨strL "@opencode go", 3, 15, strL "hi @opencode go"⟩ : OpenCodeReference).endPos =
        (⟨strL "@opencode go", 3, 15, strL "hi @opencode go"⟩ : OpenCodeReference).startPos +
          (⟨strL "@opencode go", 3, 15, strL "hi @opencode go"⟩ : OpenCodeReference).raw.length := by
  constructor
  · decide
  · exact (detect_reference_invariants (strL "hi @opencode go") _ (by decide)).2.1

/-- C6 counterexample: on the scenario input the extracted action is not
run-tests, because extractAction takes only the leading word characters and
the hyphen is not one of them. -/
theorem scenario_extractAction_counterexample :
    (detectReferences (strL "please check this @opencode run-tests --verbose")).map
        extractAction ≠ [strL "run-tests"] := by
  decide

/-- C6 amended: the scenario input yields exactly one reference whose raw text
is the marker with everything after it, extractAction on it returns run (the
leading word characters of run-tests, lower-cased), and hasOptions with the
option list [verbose] returns true. -/
theorem scenario_run_tests_verbose :
    detectReferences (strL "please check this @opencode run-tests --verbose") =
        [⟨strL "@opencode run-tests --verbose", 18, 47,
          strL "please check this @opencode run-tests --verbose"⟩] ∧
      extractAction ⟨strL "@opencode run-tests --verbose", 18, 47,
          strL "please check this @opencode run-tests --verbose"⟩ = strL "run" ∧
      hasOptions ⟨strL "@opencode run-tests --verbose", 18, 47,
          strL "please check this @opencode run-tests --verbose"⟩ [strL "verbose"] = true := by
  refine ⟨by decide, by decide, by decide⟩

/-- C1 counterexample: a text with one occurrence of the marker token for
which detectReferences returns no reference at all, because the body of the
match may not contain a stray at-sign and the lookahead then fails. -/
theorem detect_stray_at_counterexample :
    countMarkers (strL "@opencode check a@b") = 1 ∧
      (detectReferences (strL "@opencode check a@b")).length = 0 := by
  refine ⟨by decide, by decide⟩

/-! Behaviour of the detector on clean texts, where every at-sign begins a
whole-word marker occurrence. -/

theorem findAmp_of_ge_length {s : List Char} {j : Nat} (h : s.length ≤ j) :
    findAmp s j = j := by
  have hdrop : s.drop j = [] := List.drop_eq_nil_of_le h
  simp [findAmp, hdrop, idxAmp]

theorem clean_at {s : List Char} (hc : cleanText s = true) {i : Nat} (hi : i < s.length)
    (ha : s.getD i ' ' = '@') : markerWordAt s i = true := by
  simp only [cleanText, List.all_eq_true] at hc
  have h := hc i (List.mem_range.mpr hi)
  rw [ha] at h
  simpa using h

theorem no_amp_within {s : List Char} {i : Nat} (hw : markerWordAt s i = true)
    {m : Nat} (h1 : 1 ≤ m) (h2 : m < 9) : s.getD (i + m) ' ' ≠ '@' := by
  have hm := markerWordAt_markerAt hw
  have hg := ciMatch_getD hm m (by rw [length_markerChars]; omega)
  rw [getD_drop] at hg
  intro hq
  rw [hq] at hg
  interval_cases m <;> exact absurd hg (by decide)

theorem findAmp_skip {s : List Char} (hc : cleanText s = true) {i : Nat}
    (hi : i < s.length) (ha : s.getD i ' ' = '@') :
    findAmp s (i + 9) = findAmp s (i + 1) := by
  have hw := clean_at hc hi ha
  have hfit := (markerAt_amp (markerWordAt_markerAt hw)).2
  have hstep : ∀ m, m ≤ 8 → findAmp s (i + 9) = findAmp s (i + 9 - m) := by
    intro m
    induction m with
    | zero => intro _; simp
    | succ k ihk =>
      intro hk9
      have hk := ihk (by omega)
      rw [hk]
      have hlt : i + 9 - (k + 1) < s.length := by omega
      have hne : s.getD (i + 9 - (k + 1)) ' ' ≠ '@' := by
        have heq : i + 9 - (k + 1) = i + (8 - k) := by omega
        rw [heq]
        exact no_amp_within hw (by omega) (by omega)
      have hsucc := findAmp_succ_of_ne hlt hne
      have heq2 : i + 9 - (k + 1) + 1 = i + 9 - k := by omega
      rw [heq2] at hsucc
      exact hsucc.symm
  have h8 := hstep 8 (by omega)
  have : i + 9 - 8 = i + 1 := by omega
  rwa [this] at h8

theorem nextMatch_clean {s : List Char} (hc : cleanText s = true) (li : Nat) :
    nextMatch s li =
      if findAmp s li < s.length then
        some (findAmp s li, findAmp s (findAmp s li + 1))
      else none := by
  have hgen : ∀ n li, s.length + 1 - li ≤ n → nextMatch s li =
      if findAmp s li < s.length then
        some (findAmp s li, findAmp s (findAmp s li + 1))
      else none := by
    intro n
    induction n with
    | zero =>
      intro li hle
      have hge := findAmp_ge s li
      rw [nextMatch_none_of_gt (by omega), if_neg (by omega)]
    | succ k ih =>
      intro li hle
      rw [nextMatch_unfold]
      by_cases hgt : s.length < li
      · have hge := findAmp_ge s li
        rw [if_pos hgt, if_neg (by omega)]
      · rw [if_neg hgt]
        by_cases ha : s.getD li ' ' = '@'
        · have hlt : li < s.length := by
            by_contra hcon
            rw [List.getD_eq_default _ _ (by omega)] at ha
            exact absurd ha (by decide)
          have hw := clean_at hc hlt ha
          have hfit := (markerAt_amp (markerWordAt_markerAt hw)).2
          have hme : matchEnd s li = some (findAmp s (li + 9)) := by
            simp only [matchEnd, hw, if_pos]
            have hcond : (findAmp s (li + 9) == s.length ∨
                markerAt s (findAmp s (li + 9)) = true) := by
              by_cases hq : findAmp s (li + 9) < s.length
              · right
                have hq' := findAmp_amp hq
                exact markerWordAt_markerAt (clean_at hc hq hq')
              · left
                have := findAmp_le (show li + 9 ≤ s.length by omega)
                simp only [beq_iff_eq]
                omega
            rcases hcond with hq | hq
            · simp [hq]
            · simp [hq]
          rw [hme]
          rw [findAmp_skip hc hlt ha]
          rw [findAmp_eq_self ha, if_pos hlt]
        · have hw : markerWordAt s li = false := by
            by_contra hcon
            have hw' : markerWordAt s li = true := by
              cases hv : markerWordAt s li
              · exact absurd hv hcon
              · rfl
            exact ha (markerAt_amp (markerWordAt_markerAt hw')).1
          rw [matchEnd_none_of_false hw]
          rw [ih (li + 1) (by omega)]
          by_cases hlen : li < s.length
          · rw [findAmp_succ_of_ne hlen ha]
          · have h1 : findAmp s li = li := findAmp_of_ge_length (by omega)
            have h2 : findAmp s (li + 1) = li + 1 := findAmp_of_ge_length (by omega)
            rw [h1, h2, if_neg (by omega), if_neg (by omega)]
  exact hgen (s.length + 1 - li) li (Nat.le_refl _)

theorem ampsFromAux_congr {s : List Char} :
    ∀ n m j, s.length + 1 - j ≤ n → s.length + 1 - j ≤ m →
      ampsFromAux n s j = ampsFromAux m s j := by
  intro n
  induction n using Nat.strong_induction_on with
  | _ n ih =>
    intro m j hn hm
    by_cases hlt : findAmp s j < s.length
    · have hgej := findAmp_ge s j
      have hj : j ≤ s.length := by omega
      cases n with
      | zero => omega
      | succ n' =>
        cases m with
        | zero => omega
        | succ m' =>
          simp only [ampsFromAux, if_pos hlt]
          have hrec := ih n' (by omega) m' (findAmp s j + 1) (by omega) (by omega)
          rw [hrec]
    · cases n with
      | zero =>
        cases m with
        | zero => rfl
        | succ m' => simp [ampsFromAux, if_neg hlt]
      | succ n' =>
        cases m with
        | zero => simp [ampsFromAux, if_neg hlt]
        | succ m' => simp [ampsFromAux, if_neg hlt]

theorem ampsFrom_unfold (s : List Char) (j : Nat) :
    ampsFrom s j =
      if findAmp s j < s.length then findAmp s j :: ampsFrom s (findAmp s j + 1)
      else [] := by
  by_cases hlt : findAmp s j < s.length
  · have hgej := findAmp_ge s j
    have hfuel : s.length + 1 - j = (s.length - j) + 1 := by omega
    simp only [ampsFrom, hfuel, ampsFromAux, if_pos hlt]
    congr 1
    exact ampsFromAux_congr (s.length - j) (s.length + 1 - (findAmp s j + 1))
      (findAmp s j + 1) (by omega) (Nat.le_refl _)
  · rw [if_neg hlt]
    cases hfuel : s.length + 1 - j with
    | zero => simp [ampsFrom, hfuel, ampsFromAux]
    | succ k => simp [ampsFrom, hfuel, ampsFromAux, if_neg hlt]

theorem ampsFrom_mem {s : List Char} :
    ∀ j k, k ∈ ampsFrom s j ↔ (j ≤ k ∧ k < s.length ∧ s.getD k ' ' = '@') := by
  have hgen : ∀ n j, s.length + 1 - j ≤ n → ∀ k,
      (k ∈ ampsFrom s j ↔ (j ≤ k ∧ k < s.length ∧ s.getD k ' ' = '@')) := by
    intro n
    induction n with
    | zero =>
      intro j hle k
      rw [ampsFrom_unfold]
      have hge := findAmp_ge s j
      rw [if_neg (by omega)]
      simp only [List.not_mem_nil, false_iff]
      intro hcon
      omega
    | succ n' ih =>
      intro j hle k
      rw [ampsFrom_unfold]
      by_cases hlt : findAmp s j < s.length
      · have hge := findAmp_ge s j
        rw [if_pos hlt]
        simp only [List.mem_cons]
        rw [ih (findAmp s j + 1) (by omega) k]
        constructor
        · rintro (rfl | ⟨h1, h2, h3⟩)
          · exact ⟨hge, hlt, findAmp_amp hlt⟩
          · exact ⟨by omega, h2, h3⟩
        · rintro ⟨h1, h2, h3⟩
          have hmin := findAmp_min h1 h3
          by_cases hk : k = findAmp s j
          · exact Or.inl hk
          · exact Or.inr ⟨by omega, h2, h3⟩
      · rw [if_neg hlt]
        simp only [List.not_mem_nil, false_iff]
        rintro ⟨h1, h2, h3⟩
        have hmin := findAmp_min h1 h3
        omega
  intro j k
  exact hgen (s.length + 1 - j) j (Nat.le_refl _) k

theorem ampsFrom_sorted {s : List Char} : ∀ j, (ampsFrom s j).Pairwise (· < ·) := by
  have hgen : ∀ n j, s.length + 1 - j ≤ n → (ampsFrom s j).Pairwise (· < ·) := by
    intro n
    induction n with
    | zero =>
      intro j hle
      rw [ampsFrom_unfold]
      have hge := findAmp_ge s j
      rw [if_neg (by omega)]
      exact List.Pairwise.nil
    | succ n' ih =>
      intro j hle
      rw [ampsFrom_unfold]
      by_cases hlt : findAmp s j < s.length
      · have hge := findAmp_ge s j
        rw [if_pos hlt]
        refine List.pairwise_cons.mpr ⟨?_, ih (findAmp s j + 1) (by omega)⟩
        intro k hk
        have := (ampsFrom_mem (findAmp s j + 1) k).mp hk
        omega
      · rw [if_neg hlt]
        exact List.Pairwise.nil
  intro j
  exact hgen (s.length + 1 - j) j (Nat.le_refl _)

/-- On clean texts the marker occurrences are exactly the at-sign positions. -/
theorem markerOccurrences_eq_ampsFrom {s : List Char} (hc : cleanText s = true) :
    markerOccurrences s = ampsFrom s 0 := by
  have hnodup1 : (markerOccurrences s).Nodup :=
    ((List.nodup_range _).filter _)
  have hsorted1 : (markerOccurrences s).Pairwise (· < ·) :=
    (List.sorted_lt_range s.length).filter _
  have hsorted2 : (ampsFrom s 0).Pairwise (· < ·) := ampsFrom_sorted 0
  have hnodup2 : (ampsFrom s 0).Nodup :=
    hsorted2.imp (fun h => Nat.ne_of_lt h)
  have hmem : ∀ a, a ∈ markerOccurrences s ↔ a ∈ ampsFrom s 0 := by
    intro a
    rw [ampsFrom_mem]
    simp only [markerOccurrences, List.mem_filter, List.mem_range]
    constructor
    · rintro ⟨h1, h2⟩
      exact ⟨Nat.zero_le a, h1, (markerAt_amp h2).1⟩
    · rintro ⟨_, h2, h3⟩
      exact ⟨h2, markerWordAt_markerAt (clean_at hc h2 h3)⟩
  have hperm : List.Perm (markerOccurrences s) (ampsFrom s 0) :=
    (List.perm_ext_iff_of_nodup hnodup1 hnodup2).mpr hmem
  exact List.eq_of_perm_of_sorted hperm hsorted1 hsorted2

theorem detectFrom_of_nextMatch_some {s : List Char} {li i q : Nat}
    (h : nextMatch s li = some (i, q)) :
    detectFrom s li = ⟨sliceStr s i q, i, q, trimStr s⟩ :: detectFrom s q := by
  rw [detectFrom_unfold, h]

theorem detectFrom_of_nextMatch_none {s : List Char} {li : Nat}
    (h : nextMatch s li = none) : detectFrom s li = [] := by
  rw [detectFrom_unfold, h]

/-- On clean texts the exec loop emits exactly one reference per at-sign
position, each span running to the next at-sign or the end of the text. -/
theorem detectFrom_clean {s : List Char} (hc : cleanText s = true) :
    ∀ li, detectFrom s li =
      (consecutiveSpans (ampsFrom s li) s.length).map fun pq =>
        (⟨sliceStr s pq.1 pq.2, pq.1, pq.2, trimStr s⟩ : OpenCodeReference) := by
  have hgen : ∀ n li, s.length + 1 - li ≤ n → detectFrom s li =
      (consecutiveSpans (ampsFrom s li) s.length).map fun pq =>
        (⟨sliceStr s pq.1 pq.2, pq.1, pq.2, trimStr s⟩ : OpenCodeReference) := by
    intro n
    induction n with
    | zero =>
      intro li hle
      have hge := findAmp_ge s li
      rw [detectFrom_of_nextMatch_none (nextMatch_none_of_gt (by omega))]
      rw [ampsFrom_unfold, if_neg (by omega)]
      rfl
    | succ n' ih =>
      intro li hle
      have hge := findAmp_ge s li
      by_cases hlt : findAmp s li < s.length
      · have hnm : nextMatch s li =
            some (findAmp s li, findAmp s (findAmp s li + 1)) := by
          rw [nextMatch_clean hc li, if_pos hlt]
        rw [detectFrom_of_nextMatch_some hnm]
        rw [ampsFrom_unfold, if_pos hlt]
        have hqge := findAmp_ge s (findAmp s li + 1)
        by_cases hqlt : findAmp s (findAmp s li + 1) < s.length
        · have hq_amp : s.getD (findAmp s (findAmp s li + 1)) ' ' = '@' :=
            findAmp_amp hqlt
          have hamps1 : ampsFrom s (findAmp s li + 1) =
              findAmp s (findAmp s li + 1) ::
                ampsFrom s (findAmp s (findAmp s li + 1) + 1) := by
            rw [ampsFrom_unfold, if_pos hqlt]
          have hamps2 : ampsFrom s (findAmp s (findAmp s li + 1)) =
              findAmp s (findAmp s li + 1) ::
                ampsFrom s (findAmp s (findAmp s li + 1) + 1) := by
            rw [ampsFrom_unfold, findAmp_eq_self hq_amp, if_pos hqlt]
          rw [hamps1]
          simp only [consecutiveSpans, List.map_cons]
          rw [ih (findAmp s (findAmp s li + 1)) (by omega)]
          rw [hamps2]
        · have hqle : findAmp s (findAmp s li + 1) ≤ s.length :=
            findAmp_le (by omega)
          have hamps1 : ampsFrom s (findAmp s li + 1) = [] := by
            rw [ampsFrom_unfold, if_neg (by omega)]
          rw [hamps1]
          simp only [consecutiveSpans, List.map_cons, List.map_nil]
          rw [ih (findAmp s (findAmp s li + 1)) (by omega)]
          have hampsq : ampsFrom s (findAmp s (findAmp s li + 1)) = [] := by
            rw [ampsFrom_unfold,
              findAmp_of_ge_length (show s.length ≤ findAmp s (findAmp s li + 1) by omega),
              if_neg (by omega)]
          rw [hampsq]
          have hqeq : findAmp s (findAmp s li + 1) = s.length := by omega
          simp [consecutiveSpans, hqeq]
      · have hnm : nextMatch s li = none := by
          rw [nextMatch_clean hc li, if_neg hlt]
        rw [detectFrom_of_nextMatch_none hnm]
        rw [ampsFrom_unfold, if_neg hlt]
        rfl
  intro li
  exact hgen (s.length + 1 - li) li (Nat.le_refl _)

theorem consecutiveSpans_length : ∀ (l : List Nat) (len : Nat),
    (consecutiveSpans l len).length = l.length
  | [], _ => rfl
  | [_], _ => rfl
  | p :: q :: ps, len => by
    simp only [consecutiveSpans, List.length_cons]
    have := consecutiveSpans_length (q :: ps) len
    simp only [List.length_cons] at this
    omega

/-- C1 amended: on every text in which each at-sign begins a whole-word
case-insensitive occurrence of the marker token, detectReferences returns
exactly one reference per marker occurrence, ordered left to right and
non-overlapping, each body extending exactly to the start of the next
occurrence or to the end of the string, and the number of references equals
the number of occurrences. Without that restriction the property fails, see
the counterexample with a stray at-sign. -/
theorem detect_greedy_spec_of_clean (s : List Char) (hc : cleanText s = true) :
    detectReferences s = specReferences s ∧
      (detectReferences s).length = countMarkers s := by
  have h1 : detectReferences s = specReferences s := by
    unfold detectReferences specReferences
    rw [detectFrom_clean hc 0, markerOccurrences_eq_ampsFrom hc]
  refine ⟨h1, ?_⟩
  rw [h1]
  unfold specReferences countMarkers
  rw [List.length_map, consecutiveSpans_length]

/-- Witness for the amended C1 at a concrete clean text with two markers. -/
theorem detect_greedy_spec_of_clean_witness :
    cleanText (strL "a @opencode x @OPENCODE y") = true ∧
      (detectReferences (strL "a @opencode x @OPENCODE y") =
          specReferences (strL "a @opencode x @OPENCODE y") ∧
        (detectReferences (strL "a @opencode x @OPENCODE y")).length =
          countMarkers (strL "a @opencode x @OPENCODE y")) :=
  ⟨by decide, detect_greedy_spec_of_clean _ (by decide)⟩

/-! The event stream manager: filter semantics and the bounded FIFO history. -/

theorem startsWithSub_iff {needle hay : List Char} :
    startsWithSub needle hay = true ↔ ∃ post, hay = needle ++ post := by
  induction needle generalizing hay with
  | nil => simp [startsWithSub]
  | cons n ns ih =>
    cases hay with
    | nil => simp [startsWithSub]
    | cons c cs =>
      simp only [startsWithSub, Bool.and_eq_true, beq_iff_eq, ih, List.cons_append,
        List.cons.injEq]
      constructor
      · rintro ⟨rfl, post, rfl⟩
        exact ⟨post, rfl, rfl⟩
      · rintro ⟨post, rfl, rfl⟩
        exact ⟨rfl, post, rfl⟩

theorem containsSub_iff {hay needle : List Char} :
    containsSub hay needle = true ↔ ∃ pre post, hay = pre ++ needle ++ post := by
  induction hay with
  | nil =>
    simp only [containsSub, startsWithSub_iff]
    constructor
    · rintro ⟨post, hp⟩
      exact ⟨[], post, by simpa using hp⟩
    · rintro ⟨pre, post, hp⟩
      have h2 : pre = [] ∧ needle = [] ∧ post = [] := by
        have := hp.symm
        simpa [List.append_eq_nil] using this
      exact ⟨[], by simp [h2.2.1]⟩
  | cons c cs ih =>
    simp only [containsSub, Bool.or_eq_true, startsWithSub_iff, ih]
    constructor
    · rintro (⟨post, hp⟩ | ⟨pre, post, hp⟩)
      · exact ⟨[], post, by simpa using hp⟩
      · exact ⟨c :: pre, post, by simp [hp]⟩
    · rintro ⟨pre, post, hp⟩
      cases pre with
      | nil => exact Or.inl ⟨post, by simpa using hp⟩
      | cons p ps =>
        simp only [List.cons_append, List.cons.injEq] at hp
        exact Or.inr ⟨ps, post, hp.2⟩

/-- C9: with the stream active, streamEvent keeps an event exactly when the
filter set is empty, or at least one filter string is a case-insensitive
substring of at least one of the event type, the severity, some tag, the
actor, or the issue identifier: inclusive-or across filters and fields. -/
theorem stream_filter_semantics (st : StreamState) (e : LinearStreamEvent)
    (hact : st.isActive = true) :
    (streamEvent st e).1 = some e ↔
      (st.filters = [] ∨
        ∃ f ∈ st.filters,
          (∃ pre post, (jsToLower e.type).data = pre ++ (jsToLower f).data ++ post) ∨
          (∃ pre post,
            (jsToLower e.metadata.severity).data = pre ++ (jsToLower f).data ++ post) ∨
          (∃ tag, tag ∈ e.metadata.tags ∧
            ∃ pre post, (jsToLower tag).data = pre ++ (jsToLower f).data ++ post) ∨
          (∃ pre post, (jsToLower e.actor).data = pre ++ (jsToLower f).data ++ post) ∨
          (∃ pre post,
            (jsToLower e.issue.identifier).data = pre ++ (jsToLower f).data ++ post)) := by
  have hmf : ∀ f, matchesFilter e f = true ↔
      ((∃ pre post, (jsToLower e.type).data = pre ++ (jsToLower f).data ++ post) ∨
        (∃ pre post,
          (jsToLower e.metadata.severity).data = pre ++ (jsToLower f).data ++ post) ∨
        (∃ tag, tag ∈ e.metadata.tags ∧
          ∃ pre post, (jsToLower tag).data = pre ++ (jsToLower f).data ++ post) ∨
        (∃ pre post, (jsToLower e.actor).data = pre ++ (jsToLower f).data ++ post) ∨
        (∃ pre post,
          (jsToLower e.issue.identifier).data = pre ++ (jsToLower f).data ++ post)) := by
    intro f
    unfold matchesFilter
    simp only [Bool.or_eq_true, jsIncludes, containsSub_iff, List.any_eq_true, or_assoc]
  have hstep : (streamEvent st e).1 = some e ↔ shouldFilterEvent st e = false := by
    simp only [streamEvent, hact, Bool.not_true]
    by_cases hsf : shouldFilterEvent st e
    · simp [hsf]
    · simp [hsf]
  rw [hstep]
  unfold shouldFilterEvent
  by_cases hemp : st.filters.length == 0
  · have hnil : st.filters = [] := by
      rw [← List.length_eq_zero]
      simpa using hemp
    simp [hemp, hnil]
  · have hnil : ¬ st.filters = [] := by
      intro hcon
      rw [hcon] at hemp
      simp at hemp
    rw [if_neg (by simpa using hemp)]
    have hbn : (!(st.filters.any fun f => matchesFilter e f)) = false ↔
        (st.filters.any fun f => matchesFilter e f) = true := by
      cases st.filters.any fun f => matchesFilter e f <;> simp
    rw [hbn, List.any_eq_true]
    constructor
    · rintro ⟨f, hf, hm⟩
      exact Or.inr ⟨f, hf, (hmf f).mp hm⟩
    · rintro (hcon | ⟨f, hf, hm⟩)
      · exact absurd hcon hnil
      · exact ⟨f, hf, (hmf f).mpr hm⟩

/-- Witness for C9: the empty filter set keeps a concrete event. -/
theorem stream_filter_semantics_witness :
    (streamEvent ⟨[], [], true⟩ sampleEvent).1 = some sampleEvent :=
  (stream_filter_semantics ⟨[], [], true⟩ sampleEvent rfl).mpr (Or.inl rfl)

theorem addToHistory_eventHistory (st : StreamState) (e : LinearStreamEvent)
    (hlen : st.eventHistory.length ≤ maxHistorySize) :
    (addToHistory st e).eventHistory =
      (st.eventHistory ++ [e]).drop (st.eventHistory.length + 1 - maxHistorySize) := by
  simp only [addToHistory]
  by_cases hc : maxHistorySize < (st.eventHistory ++ [e]).length
  · rw [if_pos hc]
    have hk : st.eventHistory.length + 1 - maxHistorySize = 1 := by
      simp only [List.length_append, List.length_cons, List.length_nil] at hc
      omega
    rw [hk]
  · rw [if_neg hc]
    have hk : st.eventHistory.length + 1 - maxHistorySize = 0 := by
      simp only [List.length_append, List.length_cons, List.length_nil] at hc
      omega
    rw [hk, List.drop_zero]

theorem addToHistory_filters (st : StreamState) (e : LinearStreamEvent) :
    (addToHistory st e).filters = st.filters := rfl

theorem addToHistory_isActive (st : StreamState) (e : LinearStreamEvent) :
    (addToHistory st e).isActive = st.isActive := rfl

theorem streamEvent_accept (st : StreamState) (e : LinearStreamEvent)
    (hact : st.isActive = true) (hfil : st.filters = []) :
    streamEvent st e = (some e, addToHistory st e) := by
  simp [streamEvent, hact, shouldFilterEvent, hfil]

/-- With the stream active and no filters, the history after a batch of
events is the suffix of old history plus batch that fits the capacity. -/
theorem streamAll_history (es : List LinearStreamEvent) :
    ∀ st : StreamState, st.isActive = true → st.filters = [] →
      st.eventHistory.length ≤ maxHistorySize →
      (streamAll st es).eventHistory =
        (st.eventHistory ++ es).drop
          (st.eventHistory.length + es.length - maxHistorySize) := by
  induction es with
  | nil =>
    intro st hact hfil hlen
    simp only [streamAll, List.append_nil, List.length_nil, Nat.add_zero]
    have h0 : st.eventHistory.length - maxHistorySize = 0 := by omega
    rw [h0, List.drop_zero]
  | cons e es ih =>
    intro st hact hfil hlen
    simp only [streamAll]
    rw [streamEvent_accept st e hact hfil]
    have hlen' : (addToHistory st e).eventHistory.length ≤ maxHistorySize := by
      rw [addToHistory_eventHistory st e hlen]
      simp only [List.length_drop, List.length_append, List.length_cons, List.length_nil]
      have hM : 1 ≤ maxHistorySize := by decide
      omega
    have hstep := ih (addToHistory st e) (by rw [addToHistory_isActive]; exact hact)
      (by rw [addToHistory_filters]; exact hfil) hlen'
    rw [hstep, addToHistory_eventHistory st e hlen]
    have hx : st.eventHistory ++ e :: es = (st.eventHistory ++ [e]) ++ es := by
      simp
    rw [hx]
    have hk : st.eventHistory.length + 1 - maxHistorySize ≤
        (st.eventHistory ++ [e]).length := by
      simp only [List.length_append, List.length_cons, List.length_nil]
      omega
    rw [← List.drop_append_of_le_length hk, List.drop_drop]
    congr 1
    simp only [List.length_drop, List.length_append, List.length_cons, List.length_nil]
    omega

theorem streamEvent_snd_cases (st : StreamState) (e : LinearStreamEvent) :
    (streamEvent st e).2 = st ∨ (streamEvent st e).2 = addToHistory st e := by
  unfold streamEvent
  by_cases hact : st.isActive
  · by_cases hsf : shouldFilterEvent st e
    · simp [hact, hsf]
    · simp [hact, hsf]
  · simp [hact]

theorem addToHistory_length_le (st : StreamState) (e : LinearStreamEvent)
    (hlen : st.eventHistory.length ≤ maxHistorySize) :
    (addToHistory st e).eventHistory.length ≤ maxHistorySize := by
  rw [addToHistory_eventHistory st e hlen]
  simp only [List.length_drop, List.length_append, List.length_cons, List.length_nil]
  have hM : 1 ≤ maxHistorySize := by decide
  omega

/-- C7: the history of the event stream manager is a FIFO buffer bounded at
capacity 1000. From the initial active unfiltered state the history is
always the most recent slice of the streamed events; after 1001 events it
has length exactly 1000 with the first event dropped; for every state within
capacity, any sequence of streamEvent calls keeps the length within 1000;
and an accepted event on a full history evicts exactly the oldest entry. -/
theorem stream_history_fifo_bounded :
    (∀ es : List LinearStreamEvent,
        (streamAll ⟨[], [], true⟩ es).eventHistory =
          es.drop (es.length - maxHistorySize)) ∧
      (∀ es : List LinearStreamEvent, es.length = 1001 →
        (streamAll ⟨[], [], true⟩ es).eventHistory = es.drop 1 ∧
          (streamAll ⟨[], [], true⟩ es).eventHistory.length = 1000) ∧
      (∀ (st : StreamState) (es : List LinearStreamEvent),
        st.eventHistory.length ≤ maxHistorySize →
          (streamAll st es).eventHistory.length ≤ maxHistorySize) ∧
      (∀ (st : StreamState) (e ev : LinearStreamEvent) (st' : StreamState),
        st.eventHistory.length = maxHistorySize →
          streamEvent st e = (some ev, st') →
          st'.eventHistory = st.eventHistory.drop 1 ++ [e]) := by
  have hpart1 : ∀ es : List LinearStreamEvent,
      (streamAll ⟨[], [], true⟩ es).eventHistory =
        es.drop (es.length - maxHistorySize) := by
    intro es
    have := streamAll_history es ⟨[], [], true⟩ rfl rfl (by simp [maxHistorySize])
    simpa using this
  refine ⟨hpart1, ?_, ?_, ?_⟩
  · intro es hlen
    have h1 := hpart1 es
    rw [hlen] at h1
    have hM : (1001 : Nat) - maxHistorySize = 1 := by decide
    rw [hM] at h1
    refine ⟨h1, ?_⟩
    rw [h1]
    simp [hlen]
  · intro st es
    induction es generalizing st with
    | nil => intro hlen; simpa [streamAll] using hlen
    | cons e es ih =>
      intro hlen
      simp only [streamAll]
      rcases streamEvent_snd_cases st e with hcase | hcase
      · rw [hcase]; exact ih st hlen
      · rw [hcase]; exact ih (addToHistory st e) (addToHistory_length_le st e hlen)
  · intro st e ev st' hlen hse
    have hst' : st' = addToHistory st e := by
      unfold streamEvent at hse
      by_cases hact : st.isActive
      · by_cases hsf : shouldFilterEvent st e
        · rw [if_neg (by simp [hact]), if_pos hsf] at hse
          exact absurd (congrArg Prod.fst hse) (by simp)
        · rw [if_neg (by simp [hact]), if_neg hsf] at hse
          exact (congrArg Prod.snd hse).symm
      · rw [if_pos (by simp [hact])] at hse
        exact absurd (congrArg Prod.fst hse) (by simp)
    subst hst'
    rw [addToHistory_eventHistory st e (by omega)]
    have hk : st.eventHistory.length + 1 - maxHistorySize = 1 := by
      have hM : 1 ≤ maxHistorySize := by decide
      omega
    rw [hk]
    exact List.drop_append_of_le_length (by rw [hlen]; decide)

/-- Witness for C7 at small concrete instances of each bounded part. -/
theorem stream_history_fifo_bounded_witness :
    ((List.replicate 1001 sampleEvent).length = 1001 ∧
        (streamAll ⟨[], [], true⟩ (List.replicate 1001 sampleEvent)).eventHistory =
          (List.replicate 1001 sampleEvent).drop 1) ∧
      (streamAll ⟨[sampleEvent], [], true⟩ [sampleEvent2]).eventHistory.length ≤
        maxHistorySize ∧
      (streamEvent ⟨List.replicate 1000 sampleEvent, [], true⟩ sampleEvent2).2.eventHistory =
        (List.replicate 1000 sampleEvent).drop 1 ++ [sampleEvent2] := by
  have hlen : (List.replicate 1001 sampleEvent).length = 1001 := by simp
  refine ⟨⟨hlen, (stream_history_fifo_bounded.2.1 _ hlen).1⟩, ?_, ?_⟩
  · exact stream_history_fifo_bounded.2.2.1 ⟨[sampleEvent], [], true⟩ [sampleEvent2]
      (by simp [maxHistorySize])
  · refine stream_history_fifo_bounded.2.2.2 ⟨List.replicate 1000 sampleEvent, [], true⟩
      sampleEvent2 sampleEvent2
      (streamEvent ⟨List.replicate 1000 sampleEvent, [], true⟩ sampleEvent2).2
      (by simp [maxHistorySize]) ?_
    rw [streamEvent_accept _ _ rfl rfl]

/-! The ownership gate of the CRUD client. -/

theorem checkOwnership_fail {cur c : String} (h1 : c ≠ "") (h2 : c ≠ cur)
    (etype eid : String) :
    checkOwnership ⟨true⟩ ⟨false⟩ cur (some c) etype eid =
      .error (ownershipError etype eid) := by
  simp [checkOwnership, h1, h2]

theorem checkOwnership_force (opts : LinearCRUDOptions) (cur : String)
    (creator : Option String) (etype eid : String) :
    checkOwnership opts ⟨true⟩ cur creator etype eid = .ok () := by
  simp [checkOwnership]

/-- C2 amended: every ownership-gated operation of the CRUD client with
safety checks enabled and no force flag fails with the ownership error
whenever the entity's recorded creator, author or lead differs from the
acting user, and proceeds past the gate when force is passed.
updateProjectMilestone is the exception: it performs no ownership check at
all, see its counterexample. -/
theorem ownership_gate_enforced_except_milestone_update :
    (∀ (w : LinearWorld) (issueId : String) (issue : IssueRec) (c : String)
        (d : UpdateIssueData),
      findIssue w issueId = some issue → issue.creatorId = some c → c ≠ "" →
      c ≠ w.currentUserId →
      updateIssue ⟨true⟩ w issueId d ⟨false⟩ = .error (ownershipError "issue" issueId) ∧
        (updateIssue ⟨true⟩ w issueId d ⟨true⟩).isOk = true) ∧
    (∀ (w : LinearWorld) (issueId : String) (issue : IssueRec) (c : String),
      findIssue w issueId = some issue → issue.creatorId = some c → c ≠ "" →
      c ≠ w.currentUserId →
      deleteIssue ⟨true⟩ w issueId ⟨false⟩ = .error (ownershipError "issue" issueId) ∧
        (deleteIssue ⟨true⟩ w issueId ⟨true⟩).isOk = true) ∧
    (∀ (w : LinearWorld) (commentId body : String) (comment : CommentRec) (c : String),
      findComment w commentId = some comment → comment.userId = some c → c ≠ "" →
      c ≠ w.currentUserId →
      updateComment ⟨true⟩ w commentId body ⟨false⟩ =
          .error (ownershipError "comment" commentId) ∧
        (updateComment ⟨true⟩ w commentId body ⟨true⟩).isOk = true) ∧
    (∀ (w : LinearWorld) (commentId : String) (comment : CommentRec) (c : String),
      findComment w commentId = some comment → comment.userId = some c → c ≠ "" →
      c ≠ w.currentUserId →
      deleteComment ⟨true⟩ w commentId ⟨false⟩ =
          .error (ownershipError "comment" commentId) ∧
        (deleteComment ⟨true⟩ w commentId ⟨true⟩).isOk = true) ∧
    (∀ (w : LinearWorld) (projectId : String) (project : ProjectRec) (c : String)
        (d : UpdateProjectData),
      findProject w projectId = some project → project.leadId = some c → c ≠ "" →
      c ≠ w.currentUserId →
      updateProject ⟨true⟩ w projectId d ⟨false⟩ =
          .error (ownershipError "project" projectId) ∧
        (updateProject ⟨true⟩ w projectId d ⟨true⟩).isOk = true) ∧
    (∀ (w : LinearWorld) (projectId : String) (project : ProjectRec) (c : String),
      findProject w projectId = some project → project.leadId = some c → c ≠ "" →
      c ≠ w.currentUserId →
      deleteProject ⟨true⟩ w projectId ⟨false⟩ =
          .error (ownershipError "project" projectId) ∧
        (deleteProject ⟨true⟩ w projectId ⟨true⟩).isOk = true) ∧
    (∀ (w : LinearWorld) (issueId relatedIssueId relType : String) (issue issue2 : IssueRec)
        (c : String),
      findIssue w issueId = some issue → findIssue w relatedIssueId = some issue2 →
      issue.creatorId = some c → c ≠ "" → c ≠ w.currentUserId →
      createRelation ⟨true⟩ w issueId relatedIssueId relType ⟨false⟩ =
          .error (ownershipError "issue (for creating relations)" issueId) ∧
        (createRelation ⟨true⟩ w issueId relatedIssueId relType ⟨true⟩).isOk = true) ∧
    (∀ (w : LinearWorld) (relationId : String) (rel : RelationRec) (c : String),
      findRelation w relationId = some rel →
      ((findIssue w rel.issueId).bind fun i => i.creatorId) = some c → c ≠ "" →
      c ≠ w.currentUserId →
      deleteRelation ⟨true⟩ w relationId ⟨false⟩ =
          .error (ownershipError "issue relation" relationId) ∧
        (deleteRelation ⟨true⟩ w relationId ⟨true⟩).isOk = true) ∧
    (∀ (w : LinearWorld) (data : CreateMilestoneData) (project : ProjectRec) (c : String),
      findProject w data.projectId = some project → project.leadId = some c → c ≠ "" →
      c ≠ w.currentUserId →
      createProjectMilestone ⟨true⟩ w data ⟨false⟩ =
          .error (ownershipError "project (for creating milestones)" data.projectId) ∧
        (createProjectMilestone ⟨true⟩ w data ⟨true⟩).isOk = true) ∧
    (∀ (w : LinearWorld) (milestoneId : String) (m : MilestoneRec) (project : ProjectRec)
        (c : String),
      findMilestone w milestoneId = some m → findProject w m.projectId = some project →
      project.leadId = some c → c ≠ "" → c ≠ w.currentUserId →
      deleteProjectMilestone ⟨true⟩ w milestoneId ⟨false⟩ =
          .error (ownershipError "project milestone" milestoneId) ∧
        (deleteProjectMilestone ⟨true⟩ w milestoneId ⟨true⟩).isOk = true) := by
  refine ⟨?_, ?_, ?_, ?_, ?_, ?_, ?_, ?_, ?_, ?_⟩
  · intro w issueId issue c d hfind hcr hne hnu
    exact ⟨by simp [updateIssue, hfind, hcr, checkOwnership_fail hne hnu],
      by simp [updateIssue, hfind, checkOwnership_force, Except.isOk, Except.toBool]⟩
  · intro w issueId issue c hfind hcr hne hnu
    exact ⟨by simp [deleteIssue, hfind, hcr, checkOwnership_fail hne hnu],
      by simp [deleteIssue, hfind, checkOwnership_force, Except.isOk, Except.toBool]⟩
  · intro w commentId body comment c hfind hcr hne hnu
    exact ⟨by simp [updateComment, hfind, hcr, checkOwnership_fail hne hnu],
      by simp [updateComment, hfind, checkOwnership_force, Except.isOk, Except.toBool]⟩
  · intro w commentId comment c hfind hcr hne hnu
    exact ⟨by simp [deleteComment, hfind, hcr, checkOwnership_fail hne hnu],
      by simp [deleteComment, hfind, checkOwnership_force, Except.isOk, Except.toBool]⟩
  · intro w projectId project c d hfind hcr hne hnu
    exact ⟨by simp [updateProject, hfind, hcr, checkOwnership_fail hne hnu],
      by simp [updateProject, hfind, checkOwnership_force, Except.isOk, Except.toBool]⟩
  · intro w projectId project c hfind hcr hne hnu
    exact ⟨by simp [deleteProject, hfind, hcr, checkOwnership_fail hne hnu],
      by simp [deleteProject, hfind, checkOwnership_force, Except.isOk, Except.toBool]⟩
  · intro w issueId relatedIssueId relType issue issue2 c hfind hfind2 hcr hne hnu
    exact ⟨by simp [createRelation, hfind, hfind2, hcr, checkOwnership_fail hne hnu],
      by simp [createRelation, hfind, hfind2, checkOwnership_force, Except.isOk,
        Except.toBool]⟩
  · intro w relationId rel c hfind hcr hne hnu
    exact ⟨by simp [deleteRelation, hfind, hcr, checkOwnership_fail hne hnu],
      by simp [deleteRelation, hfind, checkOwnership_force, Except.isOk, Except.toBool]⟩
  · intro w data project c hfind hcr hne hnu
    exact ⟨by simp [createProjectMilestone, hfind, hcr, checkOwnership_fail hne hnu],
      by simp [createProjectMilestone, hfind, checkOwnership_force, Except.isOk,
        Except.toBool]⟩
  · intro w milestoneId m project c hfind hfindp hcr hne hnu
    exact ⟨by simp [deleteProjectMilestone, hfind, hfindp, hcr, checkOwnership_fail hne hnu],
      by simp [deleteProjectMilestone, hfind, hfindp, checkOwnership_force, Except.isOk,
        Except.toBool]⟩

/-- C2 counterexample: with safety checks enabled and no force flag,
updateProjectMilestone succeeds for an acting user who is not the lead of
the milestone's project, instead of failing with an ownership error: the
milestone update performs no ownership check. -/
theorem milestone_update_no_gate_counterexample :
    (updateProjectMilestone ⟨true⟩ worldAlice "ms-1" ⟨some "renamed", none, none, none⟩
        ⟨false⟩).isOk = true ∧
      (findMilestone worldAlice "ms-1").map (fun m => m.projectId) = some "pro-1" ∧
      (findProject worldAlice "pro-1").map (fun p => p.leadId) = some (some "alice") ∧
      worldAlice.currentUserId = "bob" ∧
      ("alice" : String) ≠ "bob" := by
  refine ⟨by decide, by decide, by decide, by decide, by decide⟩

/-- Witness for the amended C2 at the concrete world owned by alice. -/
theorem ownership_gate_enforced_witness :
    updateIssue ⟨true⟩ worldAlice "iss-1" emptyUpdateIssueData ⟨false⟩ =
        .error (ownershipError "issue" "iss-1") ∧
      deleteIssue ⟨true⟩ worldAlice "iss-1" ⟨false⟩ =
        .error (ownershipError "issue" "iss-1") ∧
      updateComment ⟨true⟩ worldAlice "com-1" "edited" ⟨false⟩ =
        .error (ownershipError "comment" "com-1") ∧
      deleteComment ⟨true⟩ worldAlice "com-1" ⟨false⟩ =
        .error (ownershipError "comment" "com-1") ∧
      updateProject ⟨true⟩ worldAlice "pro-1" ⟨none, none, none⟩ ⟨false⟩ =
        .error (ownershipError "project" "pro-1") ∧
      deleteProject ⟨true⟩ worldAlice "pro-1" ⟨false⟩ =
        .error (ownershipError "project" "pro-1") ∧
      createRelation ⟨true⟩ worldAlice "iss-1" "iss-1" "related" ⟨false⟩ =
        .error (ownershipError "issue (for creating relations)" "iss-1") ∧
      deleteRelation ⟨true⟩ worldAlice "rel-1" ⟨false⟩ =
        .error (ownershipError "issue relation" "rel-1") ∧
      createProjectMilestone ⟨true⟩ worldAlice ⟨"M", "pro-1", none, none, none⟩ ⟨false⟩ =
        .error (ownershipError "project (for creating milestones)" "pro-1") ∧
      (deleteProjectMilestone ⟨true⟩ worldAlice "ms-1" ⟨true⟩).isOk = true := by
  refine ⟨?_, ?_, ?_, ?_, ?_, ?_, ?_, ?_, ?_, ?_⟩
  · exact (ownership_gate_enforced_except_milestone_update.1 worldAlice "iss-1"
      ⟨"iss-1", "Issue one", none, some "alice", some "alice", some "st-1", none, none,
        [], none⟩ "alice" emptyUpdateIssueData (by decide) (by decide) (by decide)
      (by decide)).1
  · exact (ownership_gate_enforced_except_milestone_update.2.1 worldAlice "iss-1"
      ⟨"iss-1", "Issue one", none, some "alice", some "alice", some "st-1", none, none,
        [], none⟩ "alice" (by decide) (by decide) (by decide) (by decide)).1
  · exact (ownership_gate_enforced_except_milestone_update.2.2.1 worldAlice "com-1"
      "edited" ⟨"com-1", "iss-1", "first", some "alice"⟩ "alice" (by decide) (by decide)
      (by decide) (by decide)).1
  · exact (ownership_gate_enforced_except_milestone_update.2.2.2.1 worldAlice "com-1"
      ⟨"com-1", "iss-1", "first", some "alice"⟩ "alice" (by decide) (by decide)
      (by decide) (by decide)).1
  · exact (ownership_gate_enforced_except_milestone_update.2.2.2.2.1 worldAlice "pro-1"
      ⟨"pro-1", "Project one", none, some "alice"⟩ "alice" ⟨none, none, none⟩ (by decide)
      (by decide) (by decide) (by decide)).1
  · exact (ownership_gate_enforced_except_milestone_update.2.2.2.2.2.1 worldAlice "pro-1"
      ⟨"pro-1", "Project one", none, some "alice"⟩ "alice" (by decide) (by decide)
      (by decide) (by decide)).1
  · exact (ownership_gate_enforced_except_milestone_update.2.2.2.2.2.2.1 worldAlice
      "iss-1" "iss-1" "related"
      ⟨"iss-1", "Issue one", none, some "alice", some "alice", some "st-1", none, none,
        [], none⟩
      ⟨"iss-1", "Issue one", none, some "alice", some "alice", some "st-1", none, none,
        [], none⟩ "alice" (by decide) (by decide) (by decide) (by decide) (by decide)).1
  · exact (ownership_gate_enforced_except_milestone_update.2.2.2.2.2.2.2.1 worldAlice
      "rel-1" ⟨"rel-1", "iss-1", "iss-1", "related"⟩ "alice" (by decide) (by decide)
      (by decide) (by decide)).1
  · exact (ownership_gate_enforced_except_milestone_update.2.2.2.2.2.2.2.2.1 worldAlice
      ⟨"M", "pro-1", none, none, none⟩ ⟨"pro-1", "Project one", none, some "alice"⟩
      "alice" (by decide) (by decide) (by decide) (by decide)).1
  · exact (ownership_gate_enforced_except_milestone_update.2.2.2.2.2.2.2.2.2 worldAlice
      "ms-1" ⟨"ms-1", "pro-1", "Milestone one", none, none, none⟩
      ⟨"pro-1", "Project one", none, some "alice"⟩ "alice" (by decide) (by decide)
      (by decide) (by decide) (by decide)).2

/-- C3 counterexample: delete operations on a missing entity return false
and do not fail with a not-found error. -/
theorem delete_missing_returns_false_counterexample :
    deleteIssue ⟨true⟩ worldAlice "missing" ⟨false⟩ = .ok (false, worldAlice) ∧
      deleteComment ⟨true⟩ worldAlice "missing" ⟨false⟩ = .ok (false, worldAlice) ∧
      deleteRelation ⟨true⟩ worldAlice "missing" ⟨false⟩ = .ok (false, worldAlice) := by
  refine ⟨by decide, by decide, by decide⟩

/-- C3 amended: on an id that resolves to no entity, reads return null
without failing, updates fail explicitly with a not-found error, and
deletes return false without failing. -/
theorem missing_entity_policy :
    (∀ (w : LinearWorld) (id : String), findIssue w id = none →
      getIssue w id = .ok none ∧
        (∀ d op, updateIssue ⟨true⟩ w id d op = .error ("Issue " ++ id ++ " not found")) ∧
        (∀ op, deleteIssue ⟨true⟩ w id op = .ok (false, w))) ∧
    (∀ (w : LinearWorld) (id : String), findComment w id = none →
      getComment w id = .ok none ∧
        (∀ body op, updateComment ⟨true⟩ w id body op =
          .error ("Comment " ++ id ++ " not found")) ∧
        (∀ op, deleteComment ⟨true⟩ w id op = .ok (false, w))) ∧
    (∀ (w : LinearWorld) (id : String), findProject w id = none →
      getProject w id = .ok none ∧
        (∀ d op, updateProject ⟨true⟩ w id d op =
          .error ("Project " ++ id ++ " not found")) ∧
        (∀ op, deleteProject ⟨true⟩ w id op = .ok (false, w))) ∧
    (∀ (w : LinearWorld) (id : String), findRelation w id = none →
      ∀ op, deleteRelation ⟨true⟩ w id op = .ok (false, w)) ∧
    (∀ (w : LinearWorld) (id : String), findMilestone w id = none →
      ∀ op, deleteProjectMilestone ⟨true⟩ w id op = .ok (false, w)) := by
  refine ⟨?_, ?_, ?_, ?_, ?_⟩
  · intro w id h
    exact ⟨by simp [getIssue, h], fun d op => by simp [updateIssue, h],
      fun op => by simp [deleteIssue, h]⟩
  · intro w id h
    exact ⟨by simp [getComment, h], fun body op => by simp [updateComment, h],
      fun op => by simp [deleteComment, h]⟩
  · intro w id h
    exact ⟨by simp [getProject, h], fun d op => by simp [updateProject, h],
      fun op => by simp [deleteProject, h]⟩
  · intro w id h op
    simp [deleteRelation, h]
  · intro w id h op
    simp [deleteProjectMilestone, h]

/-- Witness for the amended C3 at a concrete world and missing id. -/
theorem missing_entity_policy_witness :
    getIssue worldAlice "missing" = .ok none ∧
      updateIssue ⟨true⟩ worldAlice "missing" emptyUpdateIssueData ⟨false⟩ =
        .error ("Issue " ++ "missing" ++ " not found") ∧
      deleteProjectMilestone ⟨true⟩ worldAlice "missing" ⟨false⟩ =
        .ok (false, worldAlice) := by
  refine ⟨?_, ?_, ?_⟩
  · exact (missing_entity_policy.1 worldAlice "missing" (by decide)).1
  · exact (missing_entity_policy.1 worldAlice "missing" (by decide)).2.1
      emptyUpdateIssueData ⟨false⟩
  · exact missing_entity_policy.2.2.2.2 worldAlice "missing" (by decide) ⟨false⟩

/-- C5 counterexample: an update that provides the empty string for
assigneeId leaves the stored assignee unchanged instead of resolving and
assigning the provided value: JavaScript truthiness sends the empty string
down the undefined branch of the tri-state dispatch. -/
theorem tri_state_empty_string_counterexample :
    updateIssue ⟨true⟩ worldBob "iss-1"
        ⟨none, none, .val "", .undef, none, none, .undef, .undef⟩ ⟨false⟩ =
      .ok (⟨"iss-1", "Issue one", none, some "bob", some "alice", some "st-1",
        none, none, [], none⟩, worldBob) := by
  decide

/-- C5 amended: each relationship field of updateIssue (assigneeId,
stateId, parentId, projectId) obeys tri-state semantics: an absent field
leaves the stored value, an explicit null clears it, a provided non-empty
value that resolves against the service is assigned; a provided
empty-string or unresolvable value leaves the field unchanged; and an
update providing no fields leaves the entity unchanged. -/
theorem updateIssue_tri_state (opts : LinearCRUDOptions) (w : LinearWorld)
    (issueId : String) (issue : IssueRec) (d : UpdateIssueData) (op : OperationOptions)
    (i' : IssueRec) (w' : LinearWorld)
    (hfind : findIssue w issueId = some issue)
    (hgate : checkOwnership opts op w.currentUserId issue.creatorId "issue" issueId =
      .ok ())
    (hupd : updateIssue opts w issueId d op = .ok (i', w')) :
    (d.assigneeId = .undef → i'.assigneeId = issue.assigneeId) ∧
      (d.assigneeId = .null → i'.assigneeId = none) ∧
      (∀ v u, d.assigneeId = .val v → v ≠ "" → findUser w v = some u →
        i'.assigneeId = some u) ∧
      (∀ v, d.assigneeId = .val v → (v = "" ∨ findUser w v = none) →
        i'.assigneeId = issue.assigneeId) ∧
      (d.stateId = .undef → i'.stateId = issue.stateId) ∧
      (d.stateId = .null → i'.stateId = none) ∧
      (∀ v u, d.stateId = .val v → v ≠ "" → findState w v = some u →
        i'.stateId = some u) ∧
      (∀ v, d.stateId = .val v → (v = "" ∨ findState w v = none) →
        i'.stateId = issue.stateId) ∧
      (d.parentId = .undef → i'.parentId = issue.parentId) ∧
      (d.parentId = .null → i'.parentId = none) ∧
      (∀ v i2, d.parentId = .val v → v ≠ "" → findIssue w v = some i2 →
        i'.parentId = some i2.id) ∧
      (∀ v, d.parentId = .val v → (v = "" ∨ findIssue w v = none) →
        i'.parentId = issue.parentId) ∧
      (d.projectId = .undef → i'.projectId = issue.projectId) ∧
      (d.projectId = .null → i'.projectId = none) ∧
      (∀ v p, d.projectId = .val v → v ≠ "" → findProject w v = some p →
        i'.projectId = some p.id) ∧
      (∀ v, d.projectId = .val v → (v = "" ∨ findProject w v = none) →
        i'.projectId = issue.projectId) ∧
      (d = emptyUpdateIssueData → i' = issue) := by
  have hi' : i' = applyIssueUpdate issue (buildIssuePayload w d) := by
    simp only [updateIssue, hfind, hgate] at hupd
    have := congrArg (fun r => match r with
      | Except.ok (p : IssueRec × LinearWorld) => p.1
      | Except.error _ => i') hupd
    simpa using this.symm
  refine ⟨?_, ?_, ?_, ?_, ?_, ?_, ?_, ?_, ?_, ?_, ?_, ?_, ?_, ?_, ?_, ?_, ?_⟩
  · intro hd
    simp [hi', applyIssueUpdate, buildIssuePayload, resolveJs, applyTri, hd]
  · intro hd
    simp [hi', applyIssueUpdate, buildIssuePayload, resolveJs, applyTri, hd]
  · intro v u hd hne hu
    simp [hi', applyIssueUpdate, buildIssuePayload, resolveJs, applyTri, hd, hne, hu]
  · intro v hd hcase
    rcases hcase with hv | hv
    · simp [hi', applyIssueUpdate, buildIssuePayload, resolveJs, applyTri, hd, hv]
    · by_cases hv0 : v = ""
      · simp [hi', applyIssueUpdate, buildIssuePayload, resolveJs, applyTri, hd, hv0]
      · simp [hi', applyIssueUpdate, buildIssuePayload, resolveJs, applyTri, hd, hv0, hv]
  · intro hd
    simp [hi', applyIssueUpdate, buildIssuePayload, resolveJs, applyTri, hd]
  · intro hd
    simp [hi', applyIssueUpdate, buildIssuePayload, resolveJs, applyTri, hd]
  · intro v u hd hne hu
    simp [hi', applyIssueUpdate, buildIssuePayload, resolveJs, applyTri, hd, hne, hu]
  · intro v hd hcase
    rcases hcase with hv | hv
    · simp [hi', applyIssueUpdate, buildIssuePayload, resolveJs, applyTri, hd, hv]
    · by_cases hv0 : v = ""
      · simp [hi', applyIssueUpdate, buildIssuePayload, resolveJs, applyTri, hd, hv0]
      · simp [hi', applyIssueUpdate, buildIssuePayload, resolveJs, applyTri, hd, hv0, hv]
  · intro hd
    simp [hi', applyIssueUpdate, buildIssuePayload, resolveJs, applyTri, hd]
  · intro hd
    simp [hi', applyIssueUpdate, buildIssuePayload, resolveJs, applyTri, hd]
  · intro v i2 hd hne hu
    simp [hi', applyIssueUpdate, buildIssuePayload, resolveJs, applyTri, hd, hne, hu]
  · intro v hd hcase
    rcases hcase with hv | hv
    · simp [hi', applyIssueUpdate, buildIssuePayload, resolveJs, applyTri, hd, hv]
    · by_cases hv0 : v = ""
      · simp [hi', applyIssueUpdate, buildIssuePayload, resolveJs, applyTri, hd, hv0]
      · simp [hi', applyIssueUpdate, buildIssuePayload, resolveJs, applyTri, hd, hv0, hv]
  · intro hd
    simp [hi', applyIssueUpdate, buildIssuePayload, resolveJs, applyTri, hd]
  · intro hd
    simp [hi', applyIssueUpdate, buildIssuePayload, resolveJs, applyTri, hd]
  · intro v p hd hne hu
    simp [hi', applyIssueUpdate, buildIssuePayload, resolveJs, applyTri, hd, hne, hu]
  · intro v hd hcase
    rcases hcase with hv | hv
    · simp [hi', applyIssueUpdate, buildIssuePayload, resolveJs, applyTri, hd, hv]
    · by_cases hv0 : v = ""
      · simp [hi', applyIssueUpdate, buildIssuePayload, resolveJs, applyTri, hd, hv0]
      · simp [hi', applyIssueUpdate, buildIssuePayload, resolveJs, applyTri, hd, hv0, hv]
  · intro hd
    subst hd
    simp [hi', applyIssueUpdate, buildIssuePayload, resolveJs, applyTri,
      emptyUpdateIssueData]

/-- Witness for the amended C5: in one concrete update a resolvable
non-empty assignee, state and parent are assigned and an empty-string
project id leaves the project unchanged. -/
theorem updateIssue_tri_state_witness :
    (⟨"iss-1", "Issue one", none, some "bob", some "bob", some "st-1",
        some "iss-1", none, [], none⟩ : IssueRec).assigneeId = some "bob" ∧
      (⟨"iss-1", "Issue one", none, some "bob", some "bob", some "st-1",
        some "iss-1", none, [], none⟩ : IssueRec).stateId = some "st-1" ∧
      (⟨"iss-1", "Issue one", none, some "bob", some "bob", some "st-1",
        some "iss-1", none, [], none⟩ : IssueRec).parentId =
        some (⟨"iss-1", "Issue one", none, some "bob", some "alice", some "st-1",
          none, none, [], none⟩ : IssueRec).id ∧
      (⟨"iss-1", "Issue one", none, some "bob", some "bob", some "st-1",
        some "iss-1", none, [], none⟩ : IssueRec).projectId =
        (⟨"iss-1", "Issue one", none, some "bob", some "alice", some "st-1",
          none, none, [], none⟩ : IssueRec).projectId := by
  have happ := updateIssue_tri_state ⟨true⟩ worldBob "iss-1"
    ⟨"iss-1", "Issue one", none, some "bob", some "alice", some "st-1", none, none,
      [], none⟩
    ⟨none, none, .val "bob", .val "st-1", none, none, .val "iss-1", .val ""⟩ ⟨false⟩
    ⟨"iss-1", "Issue one", none, some "bob", some "bob", some "st-1", some "iss-1",
      none, [], none⟩
    { worldBob with issues := [⟨"iss-1", "Issue one", none, some "bob", some "bob",
      some "st-1", some "iss-1", none, [], none⟩] }
    (by decide) (by decide) (by decide)
  obtain ⟨-, -, ha, -, -, -, hs, -, -, -, hp, -, -, -, -, hpr, -⟩ := happ
  exact ⟨ha "bob" "bob" rfl (by decide) (by decide),
    hs "st-1" "st-1" rfl (by decide) (by decide),
    hp "iss-1" ⟨"iss-1", "Issue one", none, some "bob", some "alice", some "st-1",
      none, none, [], none⟩ rfl (by decide) (by decide),
    hpr "" rfl (Or.inl rfl)⟩

/-! The verifier, modelled from the spec: the provable parts. The remaining
conjunct of the testable property, that every single-byte change of the body
flips a true verification to false, is exactly single-byte collision
resistance of HMAC-SHA256 over these definitions, and is neither provable
nor refutable. -/

theorem verify_eq_iff_hmac (body : List Nat) (sg sec : String) (hsec : sec ≠ "") :
    verifyWebhookSignature body (some sg) (some sec) = true ↔
      sg.data = hmacSha256Hex sec body := by
  simp [verifyWebhookSignature, hsec, constantTimeEq]

theorem verify_eq_iff_hmac_witness :
    ¬("deadbeef" : String) = "" ∧
      (verifyWebhookSignature [104, 105] (some "deadbeef") (some "deadbeef") = true ↔
        ("deadbeef" : String).data = hmacSha256Hex "deadbeef" [104, 105]) :=
  ⟨by decide, verify_eq_iff_hmac [104, 105] "deadbeef" "deadbeef" (by decide)⟩

theorem verify_fails_closed (body : List Nat) (sig : Option String)
    (sec : Option String) :
    verifyWebhookSignature body sig none = false ∧
      verifyWebhookSignature body none sec = false ∧
      verifyWebhookSignature body sig (some "") = false := by
  refine ⟨rfl, ?_, ?_⟩
  · cases sec with
    | none => rfl
    | some s =>
      by_cases h : s = ""
      · simp [verifyWebhookSignature, h]
      · simp [verifyWebhookSignature, h]
  · simp [verifyWebhookSignature]

theorem verify_sig_mutation (body : List Nat) (sg sg' sec : String) (hsec : sec ≠ "")
    (htrue : verifyWebhookSignature body (some sg) (some sec) = true)
    (hne : sg' ≠ sg) :
    verifyWebhookSignature body (some sg') (some sec) = false := by
  rw [verify_eq_iff_hmac body sg sec hsec] at htrue
  by_contra hcon
  have h2 : verifyWebhookSignature body (some sg') (some sec) = true := by
    cases hv : verifyWebhookSignature body (some sg') (some sec)
    · exact absurd hv hcon
    · rfl
  rw [verify_eq_iff_hmac body sg' sec hsec] at h2
  have : sg' = sg := by
    cases sg'
    cases sg
    exact congrArg String.mk (by simpa using h2.trans htrue.symm)
  exact hne this
